import Mathlib

/-!
Verification development for the riscos early-boot memory-management core.

The definitions below are a shallow embedding of the Rust sources:
machine integers (u64 / usize) are modelled as Nat (all operations used
here stay below 2^64 on the inputs the theorems quantify over; explicit
bound hypotheses are added where that matters), physical memory holding
page tables is a function from byte addresses to tables, and the
allocator parameter of the generic mapping routines is an abstract state
type with a step function, mirroring the Rust trait object.
-/

set_option maxRecDepth 4000

namespace Riscos

/-- Flags bundle passed to the mapping operations
(boot_lib/src/memory/mmu.rs, PageTableEntryFlags). -/
structure PageTableEntryFlags where
  readable : Bool
  writable : Bool
  executable : Bool
  user : Bool
  global : Bool

/-- A page table is 512 entries of 64 bits; we model it as a total
function from the entry index to the raw entry value. -/
abbrev PageTable := Nat → Nat

/-- Physical memory as seen through raw page-table pointers: a map from
byte addresses to the page table stored there. -/
abbrev Mem := Nat → PageTable

/-- PageTable::set_entry. -/
def table_set (t : PageTable) (i e : Nat) : PageTable :=
  fun j => if j = i then e else t j

/-- Store a whole table at a physical byte address. -/
def mem_set (m : Mem) (addr : Nat) (t : PageTable) : Mem :=
  fun b => if b = addr then t else m b

/-- PageTable::new / PageTable::clear: all entries zero. -/
def empty_table : PageTable := fun _ => 0

/-- PageTableEntry::is_valid: V is bit 0. -/
def is_valid (e : Nat) : Bool := e &&& 1 != 0

/-- PageTableEntry::is_readable: R is bit 1. -/
def is_readable (e : Nat) : Bool := e &&& 2 != 0

/-- PageTableEntry::is_writable: W is bit 2. -/
def is_writable (e : Nat) : Bool := e &&& 4 != 0

/-- PageTableEntry::is_executable: X is bit 3. -/
def is_executable (e : Nat) : Bool := e &&& 8 != 0

/-- PageTableEntry::is_user: U is bit 4. -/
def is_user (e : Nat) : Bool := e &&& 16 != 0

/-- PageTableEntry::is_global: G is bit 5. -/
def is_global (e : Nat) : Bool := e &&& 32 != 0

/-- PageTableEntry::is_accessed: A is bit 6. -/
def is_accessed (e : Nat) : Bool := e &&& 64 != 0

/-- PageTableEntry::is_dirty: D is bit 7. -/
def is_dirty (e : Nat) : Bool := e &&& 128 != 0

/-- PageTableEntry::set_valid (the constant is the 64-bit complement of 1). -/
def set_valid (e : Nat) (b : Bool) : Nat :=
  if b then e ||| 1 else e &&& 0xFFFFFFFFFFFFFFFE

/-- PageTableEntry::set_readable. -/
def set_readable (e : Nat) (b : Bool) : Nat :=
  if b then e ||| 2 else e &&& 0xFFFFFFFFFFFFFFFD

/-- PageTableEntry::set_writable. -/
def set_writable (e : Nat) (b : Bool) : Nat :=
  if b then e ||| 4 else e &&& 0xFFFFFFFFFFFFFFFB

/-- PageTableEntry::set_executable. -/
def set_executable (e : Nat) (b : Bool) : Nat :=
  if b then e ||| 8 else e &&& 0xFFFFFFFFFFFFFFF7

/-- PageTableEntry::set_user. -/
def set_user (e : Nat) (b : Bool) : Nat :=
  if b then e ||| 16 else e &&& 0xFFFFFFFFFFFFFFEF

/-- PageTableEntry::set_global. -/
def set_global (e : Nat) (b : Bool) : Nat :=
  if b then e ||| 32 else e &&& 0xFFFFFFFFFFFFFFDF

/-- PageTableEntry::set_flags: applies R, W, X, U, G in source order. -/
def set_flags (e : Nat) (f : PageTableEntryFlags) : Nat :=
  set_global (set_user (set_executable (set_writable (set_readable e f.readable)
    f.writable) f.executable) f.user) f.global

/-- PageTableEntry::get_ppn: bits 10..53 of the entry. -/
def get_ppn (e : Nat) : Nat := (e >>> 10) &&& 0xFFFFFFFFFFF

/-- PageTableEntry::set_ppn, with the clear mask exactly as written in the
source: the 64-bit complement of 0x0000_003F_FFFF_FFF0. -/
def set_ppn (e ppn : Nat) : Nat :=
  (e &&& 0xFFFFFFC00000000F) ||| ((ppn &&& 0xFFFFFFFFFFF) <<< 10)

/-- PageTableEntry::is_leaf. -/
def is_leaf (e : Nat) : Bool :=
  is_valid e && (is_readable e || is_writable e || is_executable e)

/-- VirtualPageNumber::get_level_2_index. -/
def get_level_2_index (vpn : Nat) : Nat := (vpn >>> 18) &&& 0x1FF

/-- VirtualPageNumber::get_level_1_index. -/
def get_level_1_index (vpn : Nat) : Nat := (vpn >>> 9) &&& 0x1FF

/-- VirtualPageNumber::get_level_0_index. -/
def get_level_0_index (vpn : Nat) : Nat := vpn &&& 0x1FF

/-- translate_virtual_address (boot_lib/src/memory/mmu.rs lines 570-604):
three-level walk, each step requiring V=1; child tables are read from
physical memory at the entry PPN shifted left by 12. -/
def translate_virtual_address (root : PageTable) (mem : Mem) (va : Nat) : Option Nat :=
  let vpn2 := (va >>> 30) &&& 0x1FF
  let vpn1 := (va >>> 21) &&& 0x1FF
  let vpn0 := (va >>> 12) &&& 0x1FF
  let offset := va &&& 0xFFF
  let e2 := root vpn2
  if is_valid e2 = false then none else
  let e1 := mem (get_ppn e2 <<< 12) vpn1
  if is_valid e1 = false then none else
  let e0 := mem (get_ppn e1 <<< 12) vpn0
  if is_valid e0 = false then none else
  some ((get_ppn e0 <<< 12) ||| offset)

/-- Tail of allocate_vpn from the level-0 access on (source lines 328-364):
given the level-1 entry just read or installed, find the level-0 table,
return the existing leaf PPN if one is present, otherwise install a leaf
for the provided (or freshly allocated) physical page. -/
def allocate_vpn_level0 {σ : Type} (root : PageTable) (vpn0 : Nat) (ppn : Option Nat)
    (flags : PageTableEntryFlags) (mem : Mem) (st : σ)
    (alloc_page : σ → Option Nat × σ) (e1 : Nat) :
    Option Nat × PageTable × Mem × σ :=
  let l0addr := get_ppn e1 <<< 12
  let e0 := mem l0addr vpn0
  if is_valid e0 && is_leaf e0 then (some (get_ppn e0), root, mem, st)
  else
    match (match ppn with
           | some p => (some p, st)
           | none => alloc_page st) with
    | (none, st1) => (none, root, mem, st1)
    | (some phys, st1) =>
      let e0a := set_ppn (set_flags (set_valid 0 true) flags) phys
      let mem1 := mem_set mem l0addr (table_set (mem l0addr) vpn0 e0a)
      (some phys, root, mem1, st1)

/-- Tail of allocate_vpn from the level-1 access on (source lines 302-326):
given the level-2 entry just read or installed, find the level-1 table and
install a fresh zeroed level-0 table if its entry is invalid. -/
def allocate_vpn_level1 {σ : Type} (root : PageTable) (vpn1 vpn0 : Nat) (ppn : Option Nat)
    (flags : PageTableEntryFlags) (mem : Mem) (st : σ)
    (alloc_page : σ → Option Nat × σ) (e2 : Nat) :
    Option Nat × PageTable × Mem × σ :=
  let l1addr := get_ppn e2 <<< 12
  let e1 := mem l1addr vpn1
  if is_valid e1 then
    allocate_vpn_level0 root vpn0 ppn flags mem st alloc_page e1
  else
    match alloc_page st with
    | (none, st1) => (none, root, mem, st1)
    | (some ptr0, st1) =>
      let mem1 := mem_set mem ptr0 empty_table
      let e1a := set_ppn (set_valid e1 true) (ptr0 >>> 12)
      let mem2 := mem_set mem1 l1addr (table_set (mem1 l1addr) vpn1 e1a)
      allocate_vpn_level0 root vpn0 ppn flags mem2 st1 alloc_page e1a

/-- allocate_vpn (boot_lib/src/memory/mmu.rs lines 269-365), the map_one of
the specification. The allocator is abstract, mirroring the generic
PhysicalMemoryAllocator parameter: a state together with an allocate_page
step returning an optional page address and the successor state. The
result carries the returned PPN option plus the updated root table,
memory, and allocator state. -/
def allocate_vpn {σ : Type} (root : PageTable) (vpn : Nat) (ppn : Option Nat)
    (flags : PageTableEntryFlags) (mem : Mem) (st : σ)
    (alloc_page : σ → Option Nat × σ) :
    Option Nat × PageTable × Mem × σ :=
  let vpn2 := get_level_2_index vpn
  let vpn1 := get_level_1_index vpn
  let vpn0 := get_level_0_index vpn
  let e2 := root vpn2
  if is_valid e2 then
    allocate_vpn_level1 root vpn1 vpn0 ppn flags mem st alloc_page e2
  else
    match alloc_page st with
    | (none, st1) => (none, root, mem, st1)
    | (some ptr1, st1) =>
      let mem1 := mem_set mem ptr1 empty_table
      let e2a := set_ppn (set_valid e2 true) (ptr1 >>> 12)
      let root1 := table_set root vpn2 e2a
      allocate_vpn_level1 root1 vpn1 vpn0 ppn flags mem1 st1 alloc_page e2a

/-- allocate_level_2_vpn (boot_lib/src/memory/mmu.rs lines 406-443), the
map_gigapage of the specification: install a leaf directly in the root
table, refusing when the target entry is already valid. Returns the
success flag together with the (possibly updated) root table. -/
def allocate_level_2_vpn (root : PageTable) (vpn ppn : Nat)
    (flags : PageTableEntryFlags) : Bool × PageTable :=
  let vpn2 := get_level_2_index vpn
  let e2 := root vpn2
  if is_valid e2 && is_leaf e2 then (false, root)
  else if is_valid e2 then (false, root)
  else
    let e2a := set_ppn (set_flags (set_valid 0 true) flags) ppn
    (true, table_set root vpn2 e2a)

/-- Loop body iteration of map_range: count remaining iterations. -/
def map_range_aux {σ : Type} (mem : Mem) (st : σ) (alloc_page : σ → Option Nat × σ)
    (root : PageTable) (cppn cvpn : Nat) (flags : PageTableEntryFlags) :
    Nat → PageTable × Mem × σ
  | 0 => (root, mem, st)
  | k + 1 =>
    match allocate_vpn root cvpn (some cppn) flags mem st alloc_page with
    | (_, root1, mem1, st1) =>
      map_range_aux mem1 st1 alloc_page root1 (cppn + 1) (cvpn + 1) flags k

/-- map_range (boot_lib/src/memory/mmu.rs lines 529-552): the source loop
is for _ in 0..=number_of_pages_inclusive, hence count + 1 iterations. -/
def map_range {σ : Type} (root : PageTable) (start_ppn start_vpn count : Nat)
    (flags : PageTableEntryFlags) (mem : Mem) (st : σ)
    (alloc_page : σ → Option Nat × σ) : PageTable × Mem × σ :=
  map_range_aux mem st alloc_page root start_ppn start_vpn flags (count + 1)

/-- Flags of the kernel high mapping (boot/src/startup/mmu.rs lines 229-232):
readable, writable, executable. -/
def kernel_flags : PageTableEntryFlags :=
  { readable := true, writable := true, executable := true, user := false, global := false }

/-- map_kernel_into_high_virtual_memory (boot/src/startup/mmu.rs lines
193-243), parameterised by the linker symbols it reads: kernel_start is
boot_end + 1, the page count is the rounded-up kernel size in pages, and
the target base is the constant 0x0000_0040_0000_0000. -/
def map_kernel_into_high_virtual_memory {σ : Type} (root : PageTable)
    (boot_end kernel_size : Nat) (mem : Mem) (st : σ)
    (alloc_page : σ → Option Nat × σ) : PageTable × Mem × σ :=
  let kernel_start := boot_end + 1
  let number_of_pages := (kernel_size + 4096 - 1) / 4096
  map_range root (kernel_start >>> 12) (0x0000004000000000 >>> 12) number_of_pages
    kernel_flags mem st alloc_page

/-- Flags of the direct physical map (boot/src/startup/mmu.rs lines
256-259): readable, writable, global, not executable. -/
def direct_mapping_flags : PageTableEntryFlags :=
  { readable := true, writable := true, executable := false, user := false, global := true }

/-- map_physical_memory (boot/src/startup/mmu.rs lines 249-297): for each
of the 128 gigabyte indices, install a gigapage at root index
512 - 128 + i mapping physical page number i <<< 18. -/
def map_physical_memory (root : PageTable) : PageTable :=
  (List.range 128).foldl
    (fun r g =>
      (allocate_level_2_vpn r ((512 - 128 + g) <<< 18) (g <<< 18) direct_mapping_flags).2)
    root

/-- Memory that holds a zero (all-invalid) table at every address. -/
def zero_mem : Mem := fun _ => empty_table

/-- A deterministic allocator handing out a fixed list of page addresses,
used to instantiate the abstract allocator parameter in witnesses. -/
def list_alloc : List Nat → Option Nat × List Nat
  | [] => (none, [])
  | p :: rest => (some p, rest)

/-! Arithmetic characterisations of the bit operations used by the page
table entry model. -/

theorem and_one_eq (x : Nat) : x &&& 1 = x % 2 :=
  Nat.and_pow_two_sub_one_eq_mod x 1

theorem and_mask44_eq (x : Nat) : x &&& 0xFFFFFFFFFFF = x % 2 ^ 44 := by
  have h := Nat.and_pow_two_sub_one_eq_mod x 44
  norm_num at h
  exact h

theorem and_511_eq (x : Nat) : x &&& 511 = x % 512 := by
  have h := Nat.and_pow_two_sub_one_eq_mod x 9
  norm_num at h
  exact h

theorem and_4095_eq (x : Nat) : x &&& 4095 = x % 4096 := by
  have h := Nat.and_pow_two_sub_one_eq_mod x 12
  norm_num at h
  exact h

/-- Bitwise AND against a mask below 2^10 only sees the low ten bits. -/
theorem low_bits_and (q b c : Nat) (hb : b < 1024) (hc : c < 1024) :
    (1024 * q + b) &&& c = b &&& c := by
  have hb2 : b < 2 ^ 10 := by norm_num at hb ⊢; exact hb
  have hq : (1024 : Nat) * q + b = 2 ^ 10 * q + b := by norm_num
  rw [hq]
  apply Nat.eq_of_testBit_eq
  intro i
  rw [Nat.testBit_and, Nat.testBit_and, Nat.testBit_mul_pow_two_add q hb2 i]
  by_cases hi : i < 10
  · simp [hi]
  · have hc2 : c < 2 ^ i :=
      lt_of_lt_of_le hc (by
        calc (1024 : Nat) = 2 ^ 10 := by norm_num
        _ ≤ 2 ^ i := Nat.pow_le_pow_right (by norm_num) (by omega))
    rw [Nat.testBit_lt_two_pow hc2]
    simp [hi]

/-- For entry bases below 64 (flag bits only), the bogus 64-bit clear mask
of set_ppn keeps exactly bits 0-3. -/
theorem small_and_clear_mask : ∀ a, a < 64 → a &&& 0xFFFFFFC00000000F = a &&& 15 := by
  decide

/-- set_ppn on a small (flags-only) base decomposes into the stored ppn
field plus the surviving low flag bits. -/
theorem set_ppn_eq (a p : Nat) (ha : a < 64) :
    set_ppn a p = 1024 * (p % 2 ^ 44) + (a &&& 15) := by
  unfold set_ppn
  rw [small_and_clear_mask a ha, and_mask44_eq, Nat.shiftLeft_eq]
  have h3 : a &&& 15 < 2 ^ 10 := lt_of_le_of_lt Nat.and_le_right (by norm_num)
  have h4 := Nat.mul_add_lt_is_or h3 (p % 2 ^ 44)
  rw [Nat.lor_comm, Nat.mul_comm (p % 2 ^ 44) (2 ^ 10), ← h4]

theorem get_ppn_eq (q b : Nat) (hb : b < 1024) :
    get_ppn (1024 * q + b) = q % 2 ^ 44 := by
  unfold get_ppn
  rw [and_mask44_eq, Nat.shiftRight_eq_div_pow]
  have h1 : (2 : Nat) ^ 10 = 1024 := by norm_num
  rw [h1]
  have h2 : (1024 * q + b) / 1024 = q := by omega
  rw [h2]

theorem is_valid_low (q b : Nat) (hb : b < 1024) :
    is_valid (1024 * q + b) = is_valid b := by
  unfold is_valid
  rw [low_bits_and q b 1 hb (by norm_num)]

theorem is_readable_low (q b : Nat) (hb : b < 1024) :
    is_readable (1024 * q + b) = is_readable b := by
  unfold is_readable
  rw [low_bits_and q b 2 hb (by norm_num)]

theorem is_writable_low (q b : Nat) (hb : b < 1024) :
    is_writable (1024 * q + b) = is_writable b := by
  unfold is_writable
  rw [low_bits_and q b 4 hb (by norm_num)]

theorem is_executable_low (q b : Nat) (hb : b < 1024) :
    is_executable (1024 * q + b) = is_executable b := by
  unfold is_executable
  rw [low_bits_and q b 8 hb (by norm_num)]

theorem is_leaf_low (q b : Nat) (hb : b < 1024) :
    is_leaf (1024 * q + b) = is_leaf b := by
  unfold is_leaf
  rw [is_valid_low q b hb, is_readable_low q b hb, is_writable_low q b hb,
    is_executable_low q b hb]

theorem is_valid_and15 (x : Nat) : is_valid (x &&& 15) = is_valid x := by
  unfold is_valid
  rw [Nat.and_assoc]
  rfl

theorem table_set_hit (t : PageTable) (i e : Nat) : table_set t i e i = e := by
  unfold table_set
  simp

theorem table_set_miss (t : PageTable) (i e j : Nat) (h : j ≠ i) :
    table_set t i e j = t j := by
  unfold table_set
  simp [h]

theorem mem_set_hit (m : Mem) (addr : Nat) (t : PageTable) : mem_set m addr t addr = t := by
  unfold mem_set
  simp

theorem mem_set_miss (m : Mem) (addr : Nat) (t : PageTable) (b : Nat) (h : b ≠ addr) :
    mem_set m addr t b = m b := by
  unfold mem_set
  simp [h]

/-- The flag bundle applied to a fresh valid entry stays below 64 and
keeps the V bit. -/
theorem set_flags_one_small (f : PageTableEntryFlags) :
    set_flags 1 f < 64 ∧ is_valid (set_flags 1 f) = true := by
  rcases f with ⟨r, w, x, u, g⟩
  cases r <;> cases w <;> cases x <;> cases u <;> cases g <;>
    exact ⟨by decide, by decide⟩

theorem set_valid_zero : set_valid 0 true = 1 := rfl

/-! C3. -/

/-- C3: the claim states that set_ppn stores the 44-bit ppn into bits
10-53 and leaves every other bit, in particular the flag bits 0-7,
unchanged, so that get_ppn then returns exactly that ppn. The code's
clear mask (the complement of 0x0000_003F_FFFF_FFF0) instead clears bits
4-37 and leaves bits 38-53 of the old entry in place: storing ppn 0 into
an entry whose D flag (bit 7) is set erases the flag, and storing ppn 0
into an entry with bit 38 set leaves get_ppn returning 2^28 instead of 0.
This contradicts the source comment that the old PPN is cleared. -/
theorem set_ppn_clobbers_flags_and_keeps_stale_bits :
    is_dirty 0x80 = true ∧ set_ppn 0x80 0 = 0 ∧ is_dirty (set_ppn 0x80 0) = false ∧
    get_ppn (set_ppn (1 <<< 38) 0) = 1 <<< 28 ∧ (1 <<< 28 : Nat) ≠ 0 := by
  decide

/-! C5. -/

/-- C5: once map_gigapage (allocate_level_2_vpn) succeeds for a root
index, any further call for the same index returns false and leaves the
root table (hence the original entry, its PPN and flag bits) unchanged;
in general the call returns false and leaves the table untouched whenever
the targeted root entry is already valid, leaf or not. -/
theorem map_gigapage_conflict :
    (∀ (root : PageTable) (vpn ppn : Nat) (f : PageTableEntryFlags) (root2 : PageTable),
      allocate_level_2_vpn root vpn ppn f = (true, root2) →
      ∀ (ppn2 : Nat) (f2 : PageTableEntryFlags),
        allocate_level_2_vpn root2 vpn ppn2 f2 = (false, root2))
    ∧
    (∀ (root : PageTable) (vpn ppn : Nat) (f : PageTableEntryFlags),
      is_valid (root (get_level_2_index vpn)) = true →
      allocate_level_2_vpn root vpn ppn f = (false, root)) := by
  have hvalid : ∀ (root : PageTable) (vpn ppn : Nat) (f : PageTableEntryFlags),
      is_valid (root (get_level_2_index vpn)) = true →
      allocate_level_2_vpn root vpn ppn f = (false, root) := by
    intro root vpn ppn f h
    unfold allocate_level_2_vpn
    simp only [h]
    cases hl : is_leaf (root (get_level_2_index vpn)) <;> simp
  refine ⟨?_, hvalid⟩
  intro root vpn ppn f root2 hsucc ppn2 f2
  unfold allocate_level_2_vpn at hsucc
  cases h2 : is_valid (root (get_level_2_index vpn)) with
  | true =>
    exfalso
    simp only [h2] at hsucc
    cases hl : is_leaf (root (get_level_2_index vpn)) <;>
      simp [hl] at hsucc
  | false =>
    simp only [h2, Bool.false_and, Bool.false_eq_true, if_false] at hsucc
    have hroot2 : root2 = table_set root (get_level_2_index vpn)
        (set_ppn (set_flags (set_valid 0 true) f) ppn) := by
      have h := congrArg Prod.snd hsucc
      simpa using h.symm
    apply hvalid
    rw [hroot2, table_set_hit, set_valid_zero, set_ppn_eq _ _ (set_flags_one_small f).1,
      is_valid_low _ _ (lt_of_le_of_lt Nat.and_le_right (by norm_num)),
      is_valid_and15]
    exact (set_flags_one_small f).2

/-- Witness for C5 at a concrete instance: installing a gigapage at root
index 0 of an empty table succeeds, and a second installation at the same
index is refused with the table unchanged. -/
theorem map_gigapage_conflict_witness :
    allocate_level_2_vpn (allocate_level_2_vpn empty_table 0 3 direct_mapping_flags).2
      0 5 kernel_flags =
    (false, (allocate_level_2_vpn empty_table 0 3 direct_mapping_flags).2) := by
  apply map_gigapage_conflict.1 empty_table 0 3 direct_mapping_flags
  rfl

/-! C2. -/

theorem level2_index_shift (v : Nat) (hv : v < 512) : get_level_2_index (v <<< 18) = v := by
  unfold get_level_2_index
  rw [Nat.shiftLeft_eq, Nat.shiftRight_eq_div_pow]
  have h1 : (2 : Nat) ^ 18 = 262144 := by norm_num
  have h2 : v * 2 ^ 18 / 2 ^ 18 = v := by rw [h1]; omega
  rw [h2, show (0x1FF : Nat) = 511 from rfl, and_511_eq, Nat.mod_eq_of_lt hv]

theorem allocate_level_2_vpn_invalid (root : PageTable) (vpn ppn : Nat)
    (f : PageTableEntryFlags) (h : is_valid (root (get_level_2_index vpn)) = false) :
    allocate_level_2_vpn root vpn ppn f =
      (true, table_set root (get_level_2_index vpn)
        (set_ppn (set_flags (set_valid 0 true) f) ppn)) := by
  simp only [allocate_level_2_vpn]
  rw [h]
  simp

theorem allocate_level_2_vpn_invalid_snd (root : PageTable) (vpn ppn : Nat)
    (f : PageTableEntryFlags) (h : is_valid (root (get_level_2_index vpn)) = false) :
    (allocate_level_2_vpn root vpn ppn f).2 =
      table_set root (get_level_2_index vpn)
        (set_ppn (set_flags (set_valid 0 true) f) ppn) := by
  rw [allocate_level_2_vpn_invalid root vpn ppn f h]

/-- Value of every root entry after the direct-map step, for any root
whose top 128 entries are zero before the step. -/
theorem map_physical_memory_spec (root : PageTable)
    (h0 : ∀ j0, 384 ≤ j0 → j0 < 512 → root j0 = 0) (j : Nat) :
    map_physical_memory root j =
      if 384 ≤ j ∧ j < 512 then 1024 * (((j - 384) <<< 18) % 2 ^ 44) + 7 else root j := by
  have main : ∀ (n : Nat), n ≤ 128 → ∀ j1,
      ((List.range n).foldl
        (fun r g => (allocate_level_2_vpn r ((512 - 128 + g) <<< 18) (g <<< 18)
          direct_mapping_flags).2) root) j1 =
      if 384 ≤ j1 ∧ j1 < 384 + n then 1024 * (((j1 - 384) <<< 18) % 2 ^ 44) + 7
      else root j1 := by
    intro n
    induction n with
    | zero =>
      intro hn j1
      rw [List.range_zero, List.foldl_nil, if_neg (by omega)]
    | succ k ih =>
      intro hn j1
      rw [List.range_succ, List.foldl_append, List.foldl_cons, List.foldl_nil]
      have hidx : get_level_2_index ((512 - 128 + k) <<< 18) = 384 + k := by
        have h1 : (512 : Nat) - 128 + k = 384 + k := by omega
        rw [h1, level2_index_shift (384 + k) (by omega)]
      have hval : is_valid (((List.range k).foldl
          (fun r g => (allocate_level_2_vpn r ((512 - 128 + g) <<< 18) (g <<< 18)
            direct_mapping_flags).2) root)
          (get_level_2_index ((512 - 128 + k) <<< 18))) = false := by
        rw [hidx, ih (by omega) (384 + k), if_neg (by omega),
          h0 (384 + k) (by omega) (by omega)]
        rfl
      rw [allocate_level_2_vpn_invalid_snd _ _ _ _ hval, hidx]
      have hE : set_ppn (set_flags (set_valid 0 true) direct_mapping_flags) (k <<< 18) =
          1024 * ((k <<< 18) % 2 ^ 44) + 7 := by
        rw [show set_flags (set_valid 0 true) direct_mapping_flags = 39 from rfl,
          set_ppn_eq 39 _ (by norm_num)]
        rfl
      by_cases hj : j1 = 384 + k
      · subst hj
        rw [table_set_hit, hE, if_pos (by omega)]
        have hsub : 384 + k - 384 = k := by omega
        rw [hsub]
      · rw [table_set_miss _ _ _ _ hj, ih (by omega) j1]
        by_cases hc : 384 ≤ j1 ∧ j1 < 384 + k
        · rw [if_pos hc, if_pos (by omega)]
        · rw [if_neg hc, if_neg (by omega)]
  unfold map_physical_memory
  rw [main 128 (le_refl _) j]

/-- C2 counterexample: the claim states that after the orchestrator's
direct-map step, translate(root, (384 + i) * 2^30) yields i * 2^30; at
i = 0, starting from a zeroed root table and zeroed physical memory,
translate returns none instead, because translate walks all three levels
without recognising the installed gigapage leaf and instead dereferences
its PPN as a child-table pointer. -/
theorem direct_map_translate_none :
    translate_virtual_address (map_physical_memory empty_table) zero_mem
      (384 * 2 ^ 30) = none ∧ (none : Option Nat) ≠ some (0 * 2 ^ 30) := by
  refine ⟨?_, by simp⟩
  have hidx : ((384 * 2 ^ 30) >>> 30) &&& 0x1FF = 384 := by
    rw [Nat.shiftRight_eq_div_pow]
    norm_num
    decide
  have hroot : map_physical_memory empty_table 384 = 7 := by
    rw [map_physical_memory_spec empty_table (fun _ _ _ => rfl) 384,
      if_pos (by omega)]
    norm_num
  simp only [translate_virtual_address, hidx, hroot]
  decide

/-- C2 amended: applied to a root table whose top 128 entries are zero
(a freshly zeroed root), the direct-map step installs at each root index
384 + i, i < 128, a valid leaf gigapage entry whose PPN is i * 2^18,
that is, physical base i * 2^30; translate itself, which only completes
three-level 4 KiB walks, does not return i * 2^30 for these addresses. -/
theorem direct_map_installs_valid_leaf_gigapages (root : PageTable)
    (h0 : ∀ j, 384 ≤ j → j < 512 → root j = 0) (i : Nat) (hi : i < 128) :
    is_leaf (map_physical_memory root (384 + i)) = true ∧
    get_ppn (map_physical_memory root (384 + i)) = i * 2 ^ 18 := by
  rw [map_physical_memory_spec root h0 (384 + i), if_pos (by omega)]
  have hsub : 384 + i - 384 = i := by omega
  rw [hsub]
  constructor
  · rw [is_leaf_low _ _ (by norm_num)]
    decide
  · rw [get_ppn_eq _ _ (by norm_num), Nat.shiftLeft_eq]
    have h44 : (2 : Nat) ^ 44 = 17592186044416 := by norm_num
    have h18 : (2 : Nat) ^ 18 = 262144 := by norm_num
    rw [h44, h18]
    omega

/-- Witness for the amended C2 theorem at root index 384 + 5. -/
theorem direct_map_installs_valid_leaf_gigapages_witness :
    is_leaf (map_physical_memory empty_table (384 + 5)) = true ∧
    get_ppn (map_physical_memory empty_table (384 + 5)) = 5 * 2 ^ 18 :=
  direct_map_installs_valid_leaf_gigapages empty_table (fun _ _ _ => rfl) 5 (by decide)

/-! C4. -/

/-- C4: the claim states the kernel image is mapped for exactly
ceil(kernel_size / 4096) pages and that no virtual page beyond that count
is mapped by this step. With kernel_size = 4096 the rounded-up page count
is 1, yet the page after the kernel image is also mapped: map_range
iterates over the inclusive range 0..=count and therefore maps count + 1
pages. Concretely, with boot_end = 0xFFF (kernel_start = 0x1000), the
virtual page at base + 0x1000 translates to physical 0x2000 even though
it lies beyond the single page the claim allows; the page after that one
is unmapped, confirming exactly count + 1 pages were installed. -/
theorem map_kernel_maps_one_page_beyond_count :
    (4096 + 4096 - 1) / 4096 = 1 ∧
    translate_virtual_address
      (map_kernel_into_high_virtual_memory empty_table 0xFFF 4096 zero_mem
        [0x200000, 0x201000] list_alloc).1
      (map_kernel_into_high_virtual_memory empty_table 0xFFF 4096 zero_mem
        [0x200000, 0x201000] list_alloc).2.1
      (0x0000004000000000 + 4096) = some 0x2000 ∧
    translate_virtual_address
      (map_kernel_into_high_virtual_memory empty_table 0xFFF 4096 zero_mem
        [0x200000, 0x201000] list_alloc).1
      (map_kernel_into_high_virtual_memory empty_table 0xFFF 4096 zero_mem
        [0x200000, 0x201000] list_alloc).2.1
      (0x0000004000000000 + 8192) = none := by
  decide

/-! C10. -/

/-- Little-endian 64-bit load from a byte array, as performed by the
little-endian RISC-V target when the walker dereferences the u64 fields
of DtbMemoryReservationEntry in place. -/
def read_u64_le (bytes : List Nat) (off : Nat) : Nat :=
  bytes.getD off 0 |||
  (bytes.getD (off + 1) 0 <<< 8) |||
  (bytes.getD (off + 2) 0 <<< 16) |||
  (bytes.getD (off + 3) 0 <<< 24) |||
  (bytes.getD (off + 4) 0 <<< 32) |||
  (bytes.getD (off + 5) 0 <<< 40) |||
  (bytes.getD (off + 6) 0 <<< 48) |||
  (bytes.getD (off + 7) 0 <<< 56)

/-- Loop of walk_memory_reservation_entries (kernel/src/dtb/mod.rs lines
213-230) over the reservation block bytes, collecting the (address, size)
pairs passed to the visitor, in order. Each iteration reads the two raw
u64 fields of the entry (no byte-order conversion appears in the source),
stops on the all-zero entry, and otherwise advances 16 bytes. The fuel
argument only bounds the recursion; since every iteration consumes 16
bytes, fuel = length of the block never runs out before the byte supply
does, so the wrapper below is exact for every block that fits in its byte
list. -/
def walk_res_aux : Nat → List Nat → List (Nat × Nat)
  | 0, _ => []
  | fuel + 1, bytes =>
    if bytes.length < 16 then []
    else
      let a := read_u64_le bytes 0
      let s := read_u64_le bytes 8
      if a == 0 && s == 0 then []
      else (a, s) :: walk_res_aux fuel (bytes.drop 16)

/-- walk_memory_reservation_entries on a reservation block given as raw
bytes. -/
def walk_memory_reservation_entries (bytes : List Nat) : List (Nat × Nat) :=
  walk_res_aux bytes.length bytes

/-- Big-endian encoding of a 64-bit value, as the DTB format stores
reservation entries (most significant byte first). -/
def be_bytes_64 (v : Nat) : List Nat :=
  [(v >>> 56) &&& 255, (v >>> 48) &&& 255, (v >>> 40) &&& 255, (v >>> 32) &&& 255,
   (v >>> 24) &&& 255, (v >>> 16) &&& 255, (v >>> 8) &&& 255, v &&& 255]

/-- The reservation block of specification scenario A: entries
(0x80000000, 0x1000) and (0x80100000, 0x2000) followed by the all-zero
terminator, laid out big-endian as the DTB format prescribes. -/
def reservation_block_demo : List Nat :=
  be_bytes_64 0x80000000 ++ be_bytes_64 0x1000 ++
  be_bytes_64 0x80100000 ++ be_bytes_64 0x2000 ++
  be_bytes_64 0 ++ be_bytes_64 0

/-- C10: the claim states the walker invokes its visitor exactly n times,
in order, with the (address, size) pairs as native-endian 64-bit values,
stopping at the all-zero entry. On the scenario-A block the walker does
stop at the terminator and fires exactly twice in order, but the values
delivered are the raw big-endian byte patterns reinterpreted as
little-endian u64 loads (the source performs no from_be conversion on
these fields, unlike every other multi-byte read in the module), not the
native-endian values (0x80000000, 0x1000) and (0x80100000, 0x2000). -/
theorem walk_reservations_delivers_swapped_values :
    (walk_memory_reservation_entries reservation_block_demo).length = 2 ∧
    walk_memory_reservation_entries reservation_block_demo =
      [(0x8000000000, 0x10000000000000), (0x108000000000, 0x20000000000000)] ∧
    walk_memory_reservation_entries reservation_block_demo ≠
      [(0x80000000, 0x1000), (0x80100000, 0x2000)] := by
  decide

/-! Memory map (kernel/src/memory/memory_map.rs). -/

/-- MemoryRegion (kernel/src/memory/memory_map.rs lines 157-178). -/
structure MemoryRegion where
  start : Nat
  size : Nat
deriving DecidableEq

/-- MemoryRegion::end: the inclusive end address, zero for an empty
region. -/
def MemoryRegion.end_addr (r : MemoryRegion) : Nat :=
  if r.size = 0 then 0 else r.start + r.size - 1

/-- A MemoryMap is a 128-slot array plus a live count; slots at or past
the count are never read, so the model keeps just the live prefix. -/
structure MemoryMap where
  regions : List MemoryRegion
deriving DecidableEq

/-- MemoryMap::add_region (lines 20-23): writes at index current_size of
the 128-element array and increments the count. When the map already
holds 128 regions the write is out of bounds, which panics in Rust;
the model returns none for that case. -/
def add_region (m : MemoryMap) (start size : Nat) : Option MemoryMap :=
  if m.regions.length < 128 then some ⟨m.regions ++ [⟨start, size⟩]⟩ else none

/-- The intersection test of the carve-out loop (line 80). -/
def intersectsB (as ae : Nat) (r : MemoryRegion) : Bool :=
  decide (as ≤ r.end_addr ∧ r.start < ae)

theorem countP_drop_succ_pos {α : Type} (p : α → Bool) (rs : List α) (i : Nat)
    (h : i < rs.length) (hp : p (rs.get ⟨i, h⟩) = true) :
    (rs.drop i).countP p = 1 + (rs.drop (i + 1)).countP p := by
  rw [List.drop_eq_getElem_cons h, List.countP_cons]
  simp only [List.get_eq_getElem] at hp
  simp [hp]
  omega

theorem countP_drop_succ_neg {α : Type} (p : α → Bool) (rs : List α) (i : Nat)
    (h : i < rs.length) (hp : p (rs.get ⟨i, h⟩) = false) :
    (rs.drop i).countP p = (rs.drop (i + 1)).countP p := by
  rw [List.drop_eq_getElem_cons h, List.countP_cons]
  simp only [List.get_eq_getElem] at hp
  simp [hp]

theorem drop_eraseIdx_self {α : Type} (l : List α) (i : Nat) (h : i < l.length) :
    (l.eraseIdx i).drop i = l.drop (i + 1) := by
  rw [List.eraseIdx_eq_take_drop_succ,
    List.drop_append_of_le_length (by rw [List.length_take]; omega),
    List.drop_eq_nil_of_le (by rw [List.length_take]; omega)]
  simp

/-- The while loop of MemoryMap::carve_out_region (lines 72-147) acting
on the live region prefix, with the aligned reserved bounds as and ae.
The final inner else branch is unreachable (the four overlap cases are
exhaustive); the model returns the list unchanged there, where the Rust
loop would simply spin. -/
def carve_loop (as ae : Nat) (rs : List MemoryRegion) (i : Nat) : List MemoryRegion :=
  if hi : i < rs.length then
    let r := rs.get ⟨i, hi⟩
    if hint : as ≤ r.end_addr ∧ r.start < ae then
      if hc1 : as ≤ r.start ∧ r.end_addr + 1 ≤ ae then
        carve_loop as ae (rs.eraseIdx i) i
      else if hc2 : as ≤ r.start ∧ ae < r.end_addr + 1 then
        carve_loop as ae (rs.set i ⟨ae, r.end_addr + 1 - ae⟩) (i + 1)
      else if hc3 : r.start < as ∧ r.end_addr + 1 ≤ ae then
        carve_loop as ae (rs.set i ⟨r.start, as - r.start⟩) (i + 1)
      else if hc4 : r.start < as ∧ ae < r.end_addr + 1 then
        if hcap : (rs.set i ⟨r.start, as - r.start⟩).length < 128 then
          carve_loop as ae
            (rs.set i ⟨r.start, as - r.start⟩ ++ [⟨ae, r.end_addr + 1 - ae⟩]) (i + 1)
        else
          carve_loop as ae (rs.set i ⟨r.start, as - r.start⟩) (i + 1)
      else rs
    else carve_loop as ae rs (i + 1)
  else rs
termination_by 2 * ((rs.drop i).countP (intersectsB as ae)) + (rs.length - i)
decreasing_by
  · have hp : intersectsB as ae (rs.get ⟨i, hi⟩) = true := by
      simp only [intersectsB, decide_eq_true_eq]
      exact hint
    have hcnt := countP_drop_succ_pos (intersectsB as ae) rs i hi hp
    rw [drop_eraseIdx_self rs i hi, List.length_eraseIdx_of_lt hi]
    omega
  · have hp : intersectsB as ae (rs.get ⟨i, hi⟩) = true := by
      simp only [intersectsB, decide_eq_true_eq]
      exact hint
    have hcnt := countP_drop_succ_pos (intersectsB as ae) rs i hi hp
    rw [show (rs.set i ⟨ae, (rs.get ⟨i, hi⟩).end_addr + 1 - ae⟩).drop (i + 1)
        = rs.drop (i + 1) by rw [List.drop_set]; simp]
    simp only [List.length_set]
    omega
  · have hp : intersectsB as ae (rs.get ⟨i, hi⟩) = true := by
      simp only [intersectsB, decide_eq_true_eq]
      exact hint
    have hcnt := countP_drop_succ_pos (intersectsB as ae) rs i hi hp
    rw [show (rs.set i ⟨(rs.get ⟨i, hi⟩).start, as - (rs.get ⟨i, hi⟩).start⟩).drop (i + 1)
        = rs.drop (i + 1) by rw [List.drop_set]; simp]
    simp only [List.length_set]
    omega
  · have hp : intersectsB as ae (rs.get ⟨i, hi⟩) = true := by
      simp only [intersectsB, decide_eq_true_eq]
      exact hint
    have hcnt := countP_drop_succ_pos (intersectsB as ae) rs i hi hp
    rw [List.drop_append_of_le_length (by simp; omega),
      show (rs.set i ⟨(rs.get ⟨i, hi⟩).start, as - (rs.get ⟨i, hi⟩).start⟩).drop (i + 1)
        = rs.drop (i + 1) by rw [List.drop_set]; simp]
    rw [List.countP_append]
    have hp2 : ([(⟨ae, (rs.get ⟨i, hi⟩).end_addr + 1 - ae⟩ : MemoryRegion)]).countP
        (intersectsB as ae) = 0 := by
      simp [intersectsB]
    rw [hp2]
    simp only [List.length_append, List.length_set, List.length_singleton]
    omega
  · have hp : intersectsB as ae (rs.get ⟨i, hi⟩) = true := by
      simp only [intersectsB, decide_eq_true_eq]
      exact hint
    have hcnt := countP_drop_succ_pos (intersectsB as ae) rs i hi hp
    rw [show (rs.set i ⟨(rs.get ⟨i, hi⟩).start, as - (rs.get ⟨i, hi⟩).start⟩).drop (i + 1)
        = rs.drop (i + 1) by rw [List.drop_set]; simp]
    simp only [List.length_set]
    omega
  · have hp : intersectsB as ae (rs.get ⟨i, hi⟩) = false := by
      simp only [intersectsB, decide_eq_false_iff_not]
      exact hint
    have hcnt := countP_drop_succ_neg (intersectsB as ae) rs i hi hp
    omega

/-- MemoryMap::carve_out_region (lines 55-148): returns unchanged for a
zero reserved size, otherwise aligns the reserved range outward to 4 KiB
(start rounded down, end rounded up, with the bitwise page mask of the
source) and runs the removal loop from index 0. -/
def carve_out_region (m : MemoryMap) (reserved_start reserved_size : Nat) : MemoryMap :=
  if reserved_size = 0 then m
  else
    let reserved_end := reserved_start + reserved_size
    let aligned_reserved_start := reserved_start &&& 0xFFFFFFFFFFFFF000
    let aligned_reserved_end := (reserved_end + 4096 - 1) &&& 0xFFFFFFFFFFFFF000
    ⟨carve_loop aligned_reserved_start aligned_reserved_end m.regions 0⟩

/-- The bitwise page mask of the source (the 64-bit complement of 4095)
rounds down to a 4 KiB boundary for all usize-range values. -/
theorem align_down_eq (x : Nat) (hx : x < 2 ^ 64) :
    x &&& 0xFFFFFFFFFFFFF000 = x / 4096 * 4096 := by
  have hq : x / 4096 < 2 ^ 52 := by omega
  have hb : x % 4096 < 2 ^ 12 := by omega
  have hx' : x = 2 ^ 12 * (x / 4096) + x % 4096 := by omega
  have hmask : (0xFFFFFFFFFFFFF000 : Nat) = 2 ^ 12 * (2 ^ 52 - 1) + 0 := by norm_num
  have hres : x / 4096 * 4096 = 2 ^ 12 * (x / 4096) + 0 := by
    norm_num
    omega
  apply Nat.eq_of_testBit_eq
  intro i
  rw [Nat.testBit_and, hres,
    Nat.testBit_mul_pow_two_add _ (show (0 : Nat) < 2 ^ 12 by norm_num) i]
  conv_lhs =>
    rw [hx', hmask,
      Nat.testBit_mul_pow_two_add _ hb i,
      Nat.testBit_mul_pow_two_add _ (show (0 : Nat) < 2 ^ 12 by norm_num) i]
  by_cases hi : i < 12
  · simp [hi]
  · simp only [hi, if_false]
    rw [Nat.testBit_two_pow_sub_one]
    by_cases hlt : i - 12 < 52
    · simp [hlt]
    · rw [Nat.testBit_lt_two_pow (lt_of_lt_of_le hq
        (Nat.pow_le_pow_right (by norm_num) (by omega)))]
      simp [hlt]

theorem carve_loop_out (as ae : Nat) (rs : List MemoryRegion) (i : Nat)
    (h : ¬ i < rs.length) : carve_loop as ae rs i = rs := by
  rw [carve_loop]
  simp [h]

theorem carve_loop_skip (as ae : Nat) (rs : List MemoryRegion) (i : Nat)
    (hi : i < rs.length)
    (hno : ¬(as ≤ (rs[i]).end_addr ∧ (rs[i]).start < ae)) :
    carve_loop as ae rs i = carve_loop as ae rs (i + 1) := by
  rw [carve_loop, dif_pos hi]
  simp only [List.get_eq_getElem]
  rw [dif_neg hno]

/-- One full evaluation of the carve loop on a single-region list. -/
theorem carve_loop_cons_step (as ae : Nat) (R : MemoryRegion) :
    carve_loop as ae [R] 0 =
      if as ≤ R.end_addr ∧ R.start < ae then
        if as ≤ R.start ∧ R.end_addr + 1 ≤ ae then ([] : List MemoryRegion)
        else if as ≤ R.start ∧ ae < R.end_addr + 1 then [⟨ae, R.end_addr + 1 - ae⟩]
        else if R.start < as ∧ R.end_addr + 1 ≤ ae then [⟨R.start, as - R.start⟩]
        else if R.start < as ∧ ae < R.end_addr + 1 then
          [⟨R.start, as - R.start⟩, ⟨ae, R.end_addr + 1 - ae⟩]
        else [R]
      else [R] := by
  rw [carve_loop]
  rw [dif_pos (show (0 : Nat) < [R].length by simp)]
  simp only [List.get_eq_getElem, List.getElem_cons_zero]
  by_cases hint : as ≤ R.end_addr ∧ R.start < ae
  · rw [dif_pos hint, if_pos hint]
    by_cases hc1 : as ≤ R.start ∧ R.end_addr + 1 ≤ ae
    · rw [dif_pos hc1, if_pos hc1]
      show carve_loop as ae ([] : List MemoryRegion) 0 = []
      exact carve_loop_out as ae [] 0 (by simp)
    · rw [dif_neg hc1, if_neg hc1]
      by_cases hc2 : as ≤ R.start ∧ ae < R.end_addr + 1
      · rw [dif_pos hc2, if_pos hc2]
        exact carve_loop_out as ae _ 1 (by simp)
      · rw [dif_neg hc2, if_neg hc2]
        by_cases hc3 : R.start < as ∧ R.end_addr + 1 ≤ ae
        · rw [dif_pos hc3, if_pos hc3]
          exact carve_loop_out as ae _ 1 (by simp)
        · rw [dif_neg hc3, if_neg hc3]
          by_cases hc4 : R.start < as ∧ ae < R.end_addr + 1
          · rw [dif_pos hc4, if_pos hc4]
            rw [dif_pos (show ([R].set 0 ⟨R.start, as - R.start⟩).length < 128 by simp)]
            simp only [List.set_cons_zero]
            rw [show ([⟨R.start, as - R.start⟩] : List MemoryRegion) ++
                [⟨ae, R.end_addr + 1 - ae⟩] =
                [⟨R.start, as - R.start⟩, ⟨ae, R.end_addr + 1 - ae⟩] from rfl]
            rw [carve_loop_skip as ae _ 1 (by simp)
              (by simp [MemoryRegion.end_addr])]
            exact carve_loop_out as ae _ 2 (by simp)
          · rw [dif_neg hc4, if_neg hc4]
  · rw [dif_neg hint, if_neg hint]
    exact carve_loop_out as ae [R] 1 (by simp)

/-- The carve loop on a single region computes exactly the interval
subtraction by the aligned reserved range. -/
theorem carve_loop_singleton_iff (as ae : Nat) (R : MemoryRegion) (hae : 0 < ae)
    (hasae : as ≤ ae) (a : Nat) :
    (∃ r ∈ carve_loop as ae [R] 0, r.start ≤ a ∧ a < r.start + r.size) ↔
    ((R.start ≤ a ∧ a < R.start + R.size) ∧ ¬(as ≤ a ∧ a < ae)) := by
  rw [carve_loop_cons_step]
  by_cases hsz : R.size = 0
  · simp only [MemoryRegion.end_addr, if_pos hsz]
    split_ifs with h1 h2 h3 h4 h5 <;> simp <;> omega
  · simp only [MemoryRegion.end_addr, if_neg hsz]
    split_ifs with h1 h2 h3 h4 h5 <;> simp <;> omega

/-- Scenario C of the specification, computed: carving (0x2000, 0x1000)
out of the single region (0x1000, 0x3000) splits it into (0x1000, 0x1000)
and (0x3000, 0x1000). -/
theorem carve_scenario_c :
    (carve_out_region ⟨[⟨0x1000, 0x3000⟩]⟩ 0x2000 0x1000).regions =
      [⟨0x1000, 0x1000⟩, ⟨0x3000, 0x1000⟩] := by
  have ha : ((0x2000 : Nat) &&& 0xFFFFFFFFFFFFF000) = 0x2000 := by decide
  have hb : ((0x2000 + 0x1000 + 4096 - 1 : Nat) &&& 0xFFFFFFFFFFFFF000) = 0x3000 := by
    decide
  unfold carve_out_region
  rw [if_neg (by norm_num)]
  simp only [ha, hb]
  rw [carve_loop_cons_step]
  norm_num [MemoryRegion.end_addr]

/-- C7: carve_out on a single region performs set subtraction: an address
is covered by the resulting regions exactly when it was covered by the
original region and does not lie in the page-aligned reserved range
(start rounded down, end rounded up; an empty reserved range removes
nothing). In particular, carving (0x2000, 0x1000) out of the region
(0x1000, 0x3000) yields exactly the regions (0x1000, 0x1000) and
(0x3000, 0x1000). The bound hypotheses keep all the source's usize
arithmetic below 2^64. -/
theorem carve_out_is_set_subtraction :
    (∀ (R : MemoryRegion) (xs xn a : Nat),
      R.start + R.size < 2 ^ 64 → xs + xn + 4096 < 2 ^ 64 →
      ((∃ r ∈ (carve_out_region ⟨[R]⟩ xs xn).regions,
          r.start ≤ a ∧ a < r.start + r.size) ↔
        ((R.start ≤ a ∧ a < R.start + R.size) ∧
          ¬(xn ≠ 0 ∧ xs / 4096 * 4096 ≤ a ∧ a < (xs + xn + 4095) / 4096 * 4096))))
    ∧ (carve_out_region ⟨[⟨0x1000, 0x3000⟩]⟩ 0x2000 0x1000).regions =
      [⟨0x1000, 0x1000⟩, ⟨0x3000, 0x1000⟩] := by
  constructor
  · intro R xs xn a hR hX
    unfold carve_out_region
    by_cases hxn : xn = 0
    · rw [if_pos hxn]
      simp [hxn]
    · rw [if_neg hxn]
      have has : xs &&& 0xFFFFFFFFFFFFF000 = xs / 4096 * 4096 :=
        align_down_eq xs (by omega)
      have haez : (xs + xn + 4096 - 1) &&& 0xFFFFFFFFFFFFF000 =
          (xs + xn + 4095) / 4096 * 4096 := by
        rw [show xs + xn + 4096 - 1 = xs + xn + 4095 from by omega,
          align_down_eq _ (by omega)]
      simp only [has, haez]
      rw [carve_loop_singleton_iff _ _ _ (by omega) (by omega) a]
      simp [hxn]
  · exact carve_scenario_c

/-- Witness for the universal part of the C7 theorem at a concrete region,
reserved range and address. -/
theorem carve_out_is_set_subtraction_witness :
    (∃ r ∈ (carve_out_region ⟨[⟨4096, 8192⟩]⟩ 0 4096).regions,
        r.start ≤ 5000 ∧ 5000 < r.start + r.size) ↔
    (((⟨4096, 8192⟩ : MemoryRegion).start ≤ 5000 ∧
        5000 < (⟨4096, 8192⟩ : MemoryRegion).start + (⟨4096, 8192⟩ : MemoryRegion).size) ∧
      ¬((4096 : Nat) ≠ 0 ∧ 0 / 4096 * 4096 ≤ 5000 ∧
          5000 < (0 + 4096 + 4095) / 4096 * 4096)) :=
  carve_out_is_set_subtraction.1 ⟨4096, 8192⟩ 0 4096 5000 (by norm_num) (by norm_num)

/-- If no region at or past index i intersects the aligned reserved
range, the carve loop leaves the region list unchanged. -/
theorem carve_loop_no_intersect (as ae : Nat) (rs : List MemoryRegion) :
    ∀ (d i : Nat), rs.length - i ≤ d →
    (∀ j (hj : j < rs.length), i ≤ j →
      ¬(as ≤ (rs[j]).end_addr ∧ (rs[j]).start < ae)) →
    carve_loop as ae rs i = rs := by
  intro d
  induction d with
  | zero =>
    intro i hd h
    exact carve_loop_out _ _ _ _ (by omega)
  | succ k ih =>
    intro i hd h
    by_cases hi : i < rs.length
    · rw [carve_loop_skip as ae rs i hi (h i hi (le_refl i))]
      exact ih (i + 1) (by omega) (fun j hj hij => h j hj (by omega))
    · exact carve_loop_out _ _ _ _ hi

/-! C8. -/

/-- C8 counterexample: the claim states that add_region on a MemoryMap
already holding 128 regions completes without failing or panicking,
silently dropping the extra region. The source writes to
self.regions[self.current_size] with current_size = 128, an out-of-bounds
index into the 128-element array, which is a Rust panic; the model
returns none for exactly that case, refuting the no-panic claim at this
concrete full map. -/
theorem add_region_at_capacity_panics :
    add_region ⟨List.replicate 128 ⟨0x100000, 0x1000⟩⟩ 0x200000 0x1000 = none := by
  norm_num [add_region]

/-- C8 amended: when a middle-case carve-out cannot store the split-off
suffix region, the suffix is silently dropped: the operation completes
with the trimmed prefix in place, every other region preserved and the
count still 128, and no error surfaces. add_region on a full map, by
contrast, does not drop silently: its write is out of bounds (a panic,
modelled as none). -/
theorem carve_middle_at_capacity_drops_suffix :
    (carve_out_region ⟨(⟨0x1000, 0x3000⟩ : MemoryRegion) ::
        List.replicate 127 ⟨0x100000, 0x1000⟩⟩ 0x2000 0x1000).regions =
      (⟨0x1000, 0x1000⟩ : MemoryRegion) :: List.replicate 127 ⟨0x100000, 0x1000⟩ ∧
    (carve_out_region ⟨(⟨0x1000, 0x3000⟩ : MemoryRegion) ::
        List.replicate 127 ⟨0x100000, 0x1000⟩⟩ 0x2000 0x1000).regions.length = 128 ∧
    add_region ⟨List.replicate 128 ⟨0x100000, 0x1000⟩⟩ 0x300000 0x1000 = none := by
  have hmain : (carve_out_region ⟨(⟨0x1000, 0x3000⟩ : MemoryRegion) ::
      List.replicate 127 ⟨0x100000, 0x1000⟩⟩ 0x2000 0x1000).regions =
      (⟨0x1000, 0x1000⟩ : MemoryRegion) :: List.replicate 127 ⟨0x100000, 0x1000⟩ := by
    have ha : ((0x2000 : Nat) &&& 0xFFFFFFFFFFFFF000) = 0x2000 := by decide
    have hb : ((0x2000 + 0x1000 + 4096 - 1 : Nat) &&& 0xFFFFFFFFFFFFF000) = 0x3000 := by
      decide
    unfold carve_out_region
    rw [if_neg (by norm_num)]
    simp only [ha, hb]
    rw [carve_loop]
    rw [dif_pos (show (0 : Nat) <
      ((⟨0x1000, 0x3000⟩ : MemoryRegion) :: List.replicate 127 ⟨0x100000, 0x1000⟩).length
      by simp)]
    simp only [List.get_eq_getElem, List.getElem_cons_zero]
    rw [dif_pos (show (0x2000 : Nat) ≤ (⟨0x1000, 0x3000⟩ : MemoryRegion).end_addr ∧
      (⟨0x1000, 0x3000⟩ : MemoryRegion).start < 0x3000 by
        norm_num [MemoryRegion.end_addr])]
    rw [dif_neg (by norm_num [MemoryRegion.end_addr]),
      dif_neg (by norm_num [MemoryRegion.end_addr]),
      dif_neg (by norm_num [MemoryRegion.end_addr]),
      dif_pos (by norm_num [MemoryRegion.end_addr])]
    rw [dif_neg (by simp)]
    simp only [List.set_cons_zero]
    norm_num [MemoryRegion.end_addr]
    rw [carve_loop_no_intersect 0x2000 0x3000 _ 128 1 (by simp) ?hno]
    case hno =>
      intro j hj hij
      simp only [List.length_cons, List.length_replicate] at hj
      obtain ⟨k, rfl⟩ : ∃ k, j = k + 1 := ⟨j - 1, by omega⟩
      simp only [List.getElem_cons_succ]
      rw [List.getElem_replicate]
      norm_num [MemoryRegion.end_addr]
  refine ⟨hmain, ?_, ?_⟩
  · rw [hmain]
    simp
  · norm_num [add_region]

/-! C6. -/

/-- Decidable disjointness of two regions as address sets: one of them is
empty, or one ends no later than the other starts. -/
def region_disjointB (r1 r2 : MemoryRegion) : Bool :=
  decide (r1.size = 0 ∨ r2.size = 0 ∨ r1.start + r1.size ≤ r2.start ∨
    r2.start + r2.size ≤ r1.start)

/-- Pairwise disjointness of the stored regions, by index. -/
def PD (rs : List MemoryRegion) : Prop :=
  ∀ i j (hi : i < rs.length) (hj : j < rs.length), i ≠ j →
    region_disjointB (rs.get ⟨i, hi⟩) (rs.get ⟨j, hj⟩) = true

theorem region_disjointB_empty (a : Nat) (r1 r2 : MemoryRegion)
    (h : region_disjointB r1 r2 = true) :
    ¬((r1.start ≤ a ∧ a < r1.start + r1.size) ∧
      (r2.start ≤ a ∧ a < r2.start + r2.size)) := by
  simp only [region_disjointB, decide_eq_true_eq] at h
  omega

theorem disjointB_sub_left (o r x : MemoryRegion)
    (hsub : o.start ≤ r.start ∧ r.start + r.size ≤ o.start + o.size)
    (h : region_disjointB o x = true) : region_disjointB r x = true := by
  simp only [region_disjointB, decide_eq_true_eq] at h ⊢
  omega

theorem disjointB_sub_right (o r x : MemoryRegion)
    (hsub : o.start ≤ r.start ∧ r.start + r.size ≤ o.start + o.size)
    (h : region_disjointB x o = true) : region_disjointB x r = true := by
  simp only [region_disjointB, decide_eq_true_eq] at h ⊢
  omega

theorem PD_eraseIdx (rs : List MemoryRegion) (n : Nat) (h : PD rs) :
    PD (rs.eraseIdx n) := by
  by_cases hn : n < rs.length
  · intro i j hi hj hij
    have hlen := List.length_eraseIdx_of_lt hn
    simp only [List.get_eq_getElem]
    by_cases h1 : i < n
    · by_cases h2 : j < n
      · rw [List.getElem_eraseIdx_of_lt _ _ _ _ h1, List.getElem_eraseIdx_of_lt _ _ _ _ h2]
        exact h i j (by omega) (by omega) hij
      · rw [List.getElem_eraseIdx_of_lt _ _ _ _ h1,
          List.getElem_eraseIdx_of_ge _ _ _ _ (by omega)]
        exact h i (j + 1) (by omega) (by omega) (by omega)
    · by_cases h2 : j < n
      · rw [List.getElem_eraseIdx_of_ge _ _ _ _ (by omega),
          List.getElem_eraseIdx_of_lt _ _ _ _ h2]
        exact h (i + 1) j (by omega) (by omega) (by omega)
      · rw [List.getElem_eraseIdx_of_ge _ _ _ _ (by omega),
          List.getElem_eraseIdx_of_ge _ _ _ _ (by omega)]
        exact h (i + 1) (j + 1) (by omega) (by omega) (by omega)
  · rw [List.eraseIdx_of_length_le (by omega)]
    exact h

theorem PD_set (rs : List MemoryRegion) (n : Nat) (hn : n < rs.length)
    (r : MemoryRegion)
    (hsub : (rs.get ⟨n, hn⟩).start ≤ r.start ∧
      r.start + r.size ≤ (rs.get ⟨n, hn⟩).start + (rs.get ⟨n, hn⟩).size)
    (h : PD rs) : PD (rs.set n r) := by
  intro i j hi hj hij
  simp only [List.length_set] at hi hj
  simp only [List.get_eq_getElem]
  by_cases hin : n = i
  · subst hin
    rw [List.getElem_set_self, List.getElem_set_ne (show n ≠ j by omega)]
    exact disjointB_sub_left _ _ _ hsub (h n j hn hj hij)
  · by_cases hjn : n = j
    · subst hjn
      rw [List.getElem_set_self, List.getElem_set_ne (show n ≠ i by omega)]
      exact disjointB_sub_right _ _ _ hsub (h i n hi hn hij)
    · rw [List.getElem_set_ne hin, List.getElem_set_ne hjn]
      exact h i j hi hj hij

theorem PD_append_single (rs : List MemoryRegion) (r2 : MemoryRegion)
    (h : PD rs)
    (h2 : ∀ j (hj : j < rs.length), region_disjointB (rs.get ⟨j, hj⟩) r2 = true ∧
      region_disjointB r2 (rs.get ⟨j, hj⟩) = true) :
    PD (rs ++ [r2]) := by
  intro i j hi hj hij
  simp only [List.length_append, List.length_singleton] at hi hj
  simp only [List.get_eq_getElem]
  by_cases hilen : i < rs.length
  · by_cases hjlen : j < rs.length
    · rw [List.getElem_append_left hilen, List.getElem_append_left hjlen]
      exact h i j hilen hjlen hij
    · have hjv : j = rs.length := by omega
      rw [List.getElem_append_left hilen,
        List.getElem_append_right (by omega)]
      subst hjv
      simp only [Nat.sub_self, List.getElem_singleton]
      exact (h2 i hilen).1
  · have hiv : i = rs.length := by omega
    have hjlen : j < rs.length := by omega
    rw [List.getElem_append_left hjlen, List.getElem_append_right (by omega)]
    subst hiv
    simp only [Nat.sub_self, List.getElem_singleton]
    exact (h2 j hjlen).2

/-- Every region produced by the carve loop on a pairwise-disjoint list is
again pairwise disjoint (cases mirror the loop's four overlap cases). -/
theorem carve_loop_preserves_PD (as ae : Nat) (hasae : as ≤ ae) (hae : 0 < ae) :
    ∀ (d : Nat) (rs : List MemoryRegion) (i : Nat),
      2 * ((rs.drop i).countP (intersectsB as ae)) + (rs.length - i) ≤ d →
      PD rs → PD (carve_loop as ae rs i) := by
  intro d
  induction d with
  | zero =>
    intro rs i hd hpd
    rw [carve_loop_out _ _ _ _ (by omega)]
    exact hpd
  | succ k ih =>
    intro rs i hd hpd
    by_cases hi : i < rs.length
    · rw [carve_loop, dif_pos hi]
      simp only [List.get_eq_getElem]
      by_cases hint : as ≤ (rs[i]).end_addr ∧ (rs[i]).start < ae
      · rw [dif_pos hint]
        have hp : intersectsB as ae (rs.get ⟨i, hi⟩) = true := by
          simp only [intersectsB, decide_eq_true_eq]
          exact hint
        have hcnt := countP_drop_succ_pos (intersectsB as ae) rs i hi hp
        by_cases hc1 : as ≤ (rs[i]).start ∧ (rs[i]).end_addr + 1 ≤ ae
        · rw [dif_pos hc1]
          apply ih
          · rw [drop_eraseIdx_self rs i hi, List.length_eraseIdx_of_lt hi]
            omega
          · exact PD_eraseIdx rs i hpd
        · rw [dif_neg hc1]
          by_cases hc2 : as ≤ (rs[i]).start ∧ ae < (rs[i]).end_addr + 1
          · rw [dif_pos hc2]
            apply ih
            · rw [show (rs.set i ⟨ae, (rs[i]).end_addr + 1 - ae⟩).drop (i + 1)
                  = rs.drop (i + 1) by rw [List.drop_set]; simp]
              simp only [List.length_set]
              omega
            · apply PD_set rs i hi _ ?hsub hpd
              case hsub =>
                simp only [List.get_eq_getElem]
                unfold MemoryRegion.end_addr at hc2 hint ⊢
                by_cases hsz : (rs[i]).size = 0 <;>
                  simp [hsz] at hc2 hint ⊢ <;> omega
          · rw [dif_neg hc2]
            by_cases hc3 : (rs[i]).start < as ∧ (rs[i]).end_addr + 1 ≤ ae
            · rw [dif_pos hc3]
              apply ih
              · rw [show (rs.set i ⟨(rs[i]).start, as - (rs[i]).start⟩).drop (i + 1)
                    = rs.drop (i + 1) by rw [List.drop_set]; simp]
                simp only [List.length_set]
                omega
              · apply PD_set rs i hi _ ?hsub3 hpd
                case hsub3 =>
                  simp only [List.get_eq_getElem]
                  unfold MemoryRegion.end_addr at hc3 hint
                  by_cases hsz : (rs[i]).size = 0 <;>
                    simp [hsz] at hc3 hint ⊢ <;> omega
            · rw [dif_neg hc3]
              by_cases hc4 : (rs[i]).start < as ∧ ae < (rs[i]).end_addr + 1
              · rw [dif_pos hc4]
                have hsub1 : (rs.get ⟨i, hi⟩).start ≤ (rs[i]).start ∧
                    (rs[i]).start + (as - (rs[i]).start) ≤
                      (rs.get ⟨i, hi⟩).start + (rs.get ⟨i, hi⟩).size := by
                  simp only [List.get_eq_getElem]
                  unfold MemoryRegion.end_addr at hc4 hint
                  by_cases hsz : (rs[i]).size = 0 <;>
                    simp [hsz] at hc4 hint ⊢ <;> omega
                have hsub2 : (rs[i]).start ≤ ae ∧
                    ae + ((rs[i]).end_addr + 1 - ae) ≤ (rs[i]).start + (rs[i]).size := by
                  unfold MemoryRegion.end_addr at hc4 hint ⊢
                  by_cases hsz : (rs[i]).size = 0 <;>
                    simp [hsz] at hc4 hint ⊢ <;> omega
                by_cases hcap : (rs.set i ⟨(rs[i]).start, as - (rs[i]).start⟩).length < 128
                · rw [dif_pos hcap]
                  apply ih
                  · rw [List.drop_append_of_le_length (by simp; omega),
                      show (rs.set i ⟨(rs[i]).start, as - (rs[i]).start⟩).drop (i + 1)
                        = rs.drop (i + 1) by rw [List.drop_set]; simp,
                      List.countP_append]
                    have hone : ([(⟨ae, (rs[i]).end_addr + 1 - ae⟩ : MemoryRegion)]).countP
                        (intersectsB as ae) = 0 := by
                      simp [intersectsB]
                    rw [hone]
                    simp only [List.length_append, List.length_set, List.length_singleton]
                    omega
                  · apply PD_append_single _ _
                      (PD_set rs i hi ⟨(rs[i]).start, as - (rs[i]).start⟩ hsub1 hpd)
                    intro j hj
                    simp only [List.length_set] at hj
                    simp only [List.get_eq_getElem]
                    by_cases hji : i = j
                    · subst hji
                      rw [List.getElem_set_self]
                      constructor <;>
                        · simp only [region_disjointB, decide_eq_true_eq]
                          omega
                    · rw [List.getElem_set_ne hji]
                      exact ⟨disjointB_sub_right _ _ _ hsub2 (hpd j i hj hi (by omega)),
                        disjointB_sub_left _ _ _ hsub2 (hpd i j hi hj (by omega))⟩
                · rw [dif_neg hcap]
                  apply ih
                  · rw [show (rs.set i ⟨(rs[i]).start, as - (rs[i]).start⟩).drop (i + 1)
                        = rs.drop (i + 1) by rw [List.drop_set]; simp]
                    simp only [List.length_set]
                    omega
                  · exact PD_set rs i hi ⟨(rs[i]).start, as - (rs[i]).start⟩ hsub1 hpd
              · rw [dif_neg hc4]
                exact hpd
      · rw [dif_neg hint]
        have hp : intersectsB as ae (rs.get ⟨i, hi⟩) = false := by
          simp only [intersectsB, decide_eq_false_iff_not]
          exact hint
        have hcnt := countP_drop_succ_neg (intersectsB as ae) rs i hi hp
        exact ih rs (i + 1) (by omega) hpd
    · rw [carve_loop_out _ _ _ _ hi]
      exact hpd

theorem carve_out_preserves_PD (m : MemoryMap) (xs xn : Nat)
    (hX : xn = 0 ∨ xs + xn + 4096 < 2 ^ 64) (hpd : PD m.regions) :
    PD (carve_out_region m xs xn).regions := by
  unfold carve_out_region
  by_cases hxn : xn = 0
  · rw [if_pos hxn]
    exact hpd
  · rw [if_neg hxn]
    have hb : xs + xn + 4096 < 2 ^ 64 := hX.resolve_left hxn
    have has := align_down_eq xs (by omega)
    have haev := align_down_eq (xs + xn + 4096 - 1) (by omega)
    show PD (carve_loop (xs &&& 0xFFFFFFFFFFFFF000)
      ((xs + xn + 4096 - 1) &&& 0xFFFFFFFFFFFFF000) m.regions 0)
    apply carve_loop_preserves_PD _ _ ?h1 ?h2 _ m.regions 0 (le_refl _) hpd
    case h1 =>
      rw [has, haev]
      omega
    case h2 =>
      rw [haev]
      omega

/-- The operations a MemoryMap exposes to its callers, as a reified call
sequence. -/
inductive MapOp where
  | add : Nat → Nat → MapOp
  | carve : Nat → Nat → MapOp

/-- Run a sequence of add_region / carve_out_region calls; none when an
add_region hits the out-of-bounds panic. -/
def apply_ops (m : MemoryMap) : List MapOp → Option MemoryMap
  | [] => some m
  | MapOp.add s n :: rest =>
    match add_region m s n with
    | some m1 => apply_ops m1 rest
    | none => none
  | MapOp.carve s n :: rest => apply_ops (carve_out_region m s n) rest

/-- Side conditions on a call sequence: every added region stays within
usize arithmetic and is disjoint from the regions stored at that point,
no add overflows the 128 slots, and every carve's reserved range stays
within usize arithmetic. -/
def ops_ok (m : MemoryMap) : List MapOp → Bool
  | [] => true
  | MapOp.add s n :: rest =>
    decide (s + n < 2 ^ 64) &&
    m.regions.all (fun r => region_disjointB r ⟨s, n⟩ && region_disjointB ⟨s, n⟩ r) &&
    (match add_region m s n with
     | some m1 => ops_ok m1 rest
     | none => false)
  | MapOp.carve s n :: rest =>
    decide (n = 0 ∨ s + n + 4096 < 2 ^ 64) && ops_ok (carve_out_region m s n) rest

theorem PD_add (m : MemoryMap) (s n : Nat) (m1 : MemoryMap)
    (h : add_region m s n = some m1) (hpd : PD m.regions)
    (hdis : m.regions.all
      (fun r => region_disjointB r ⟨s, n⟩ && region_disjointB ⟨s, n⟩ r) = true) :
    PD m1.regions := by
  unfold add_region at h
  by_cases hlen : m.regions.length < 128
  · rw [if_pos hlen] at h
    have hm1 : m1 = ⟨m.regions ++ [⟨s, n⟩]⟩ := (Option.some.inj h).symm
    subst hm1
    apply PD_append_single _ _ hpd
    intro j hj
    rw [List.all_eq_true] at hdis
    have hr := hdis (m.regions.get ⟨j, hj⟩) (List.get_mem _ _ _)
    simp only [Bool.and_eq_true] at hr
    exact hr
  · rw [if_neg hlen] at h
    exact absurd h (by simp)

theorem apply_ops_PD :
    ∀ (ops : List MapOp) (m m2 : MemoryMap),
      PD m.regions → ops_ok m ops = true → apply_ops m ops = some m2 →
      PD m2.regions := by
  intro ops
  induction ops with
  | nil =>
    intro m m2 hpd hok happ
    unfold apply_ops at happ
    rw [← Option.some.inj happ]
    exact hpd
  | cons op rest ih =>
    cases op with
    | add s n =>
      intro m m2 hpd hok happ
      unfold ops_ok at hok
      unfold apply_ops at happ
      cases hadd : add_region m s n with
      | none =>
        rw [hadd] at happ
        exact absurd happ (by simp)
      | some m1 =>
        rw [hadd] at happ hok
        simp only [Bool.and_eq_true] at hok
        exact ih m1 m2 (PD_add m s n m1 hadd hpd hok.1.2) hok.2 happ
    | carve s n =>
      intro m m2 hpd hok happ
      unfold ops_ok at hok
      unfold apply_ops at happ
      simp only [Bool.and_eq_true, decide_eq_true_eq] at hok
      exact ih _ m2 (carve_out_preserves_PD m s n hok.1 hpd) hok.2 happ

/-- C6 counterexample: the claim states that after any sequence of
add_region and carve_out calls the stored regions are pairwise disjoint.
Two add_region calls with the identical range (0x1000, 0x1000) on an
empty map succeed (add_region performs no overlap check) and leave two
distinct slots holding the same region, whose intersection contains the
address 0x1000. -/
theorem add_region_allows_overlapping_regions :
    apply_ops ⟨[]⟩ [MapOp.add 0x1000 0x1000, MapOp.add 0x1000 0x1000] =
      some ⟨[⟨0x1000, 0x1000⟩, ⟨0x1000, 0x1000⟩]⟩ ∧
    (((⟨[⟨0x1000, 0x1000⟩, ⟨0x1000, 0x1000⟩]⟩ : MemoryMap).regions.get
        ⟨0, by norm_num⟩).start ≤ 0x1000 ∧
      (0x1000 : Nat) <
        ((⟨[⟨0x1000, 0x1000⟩, ⟨0x1000, 0x1000⟩]⟩ : MemoryMap).regions.get
          ⟨0, by norm_num⟩).start +
        ((⟨[⟨0x1000, 0x1000⟩, ⟨0x1000, 0x1000⟩]⟩ : MemoryMap).regions.get
          ⟨0, by norm_num⟩).size) ∧
    (((⟨[⟨0x1000, 0x1000⟩, ⟨0x1000, 0x1000⟩]⟩ : MemoryMap).regions.get
        ⟨1, by norm_num⟩).start ≤ 0x1000 ∧
      (0x1000 : Nat) <
        ((⟨[⟨0x1000, 0x1000⟩, ⟨0x1000, 0x1000⟩]⟩ : MemoryMap).regions.get
          ⟨1, by norm_num⟩).start +
        ((⟨[⟨0x1000, 0x1000⟩, ⟨0x1000, 0x1000⟩]⟩ : MemoryMap).regions.get
          ⟨1, by norm_num⟩).size) := by
  refine ⟨rfl, ?_, ?_⟩ <;> norm_num

/-- C6 amended: starting from a map whose stored regions are pairwise
disjoint, after any sequence of add_region and carve_out calls in which
each added region is disjoint from the regions stored at that point (and
the usual usize bounds hold), every two distinct stored regions remain
disjoint: no address lies in both. Without the disjointness condition on
adds the property fails, since add_region performs no overlap check. -/
theorem map_operations_keep_regions_disjoint :
    ∀ (ops : List MapOp) (m m2 : MemoryMap),
      PD m.regions → ops_ok m ops = true → apply_ops m ops = some m2 →
      ∀ i j (hi : i < m2.regions.length) (hj : j < m2.regions.length), i ≠ j →
        ∀ a : Nat,
          ¬(((m2.regions.get ⟨i, hi⟩).start ≤ a ∧
              a < (m2.regions.get ⟨i, hi⟩).start + (m2.regions.get ⟨i, hi⟩).size) ∧
            ((m2.regions.get ⟨j, hj⟩).start ≤ a ∧
              a < (m2.regions.get ⟨j, hj⟩).start + (m2.regions.get ⟨j, hj⟩).size)) := by
  intro ops m m2 hpd hok happ i j hi hj hij a
  exact region_disjointB_empty a _ _ (apply_ops_PD ops m m2 hpd hok happ i j hi hj hij)

/-- Witness for the amended C6 theorem: after adding (0x1000, 0x3000) and
carving out (0x2000, 0x1000), the two resulting regions share no address;
checked at 0x1800 for the region pair (0, 1). -/
theorem map_operations_keep_regions_disjoint_witness :
    ¬((((carve_out_region ⟨[⟨0x1000, 0x3000⟩]⟩ 0x2000 0x1000).regions.get
          ⟨0, by rw [carve_scenario_c]; norm_num⟩).start ≤ 0x1800 ∧
        (0x1800 : Nat) <
          ((carve_out_region ⟨[⟨0x1000, 0x3000⟩]⟩ 0x2000 0x1000).regions.get
            ⟨0, by rw [carve_scenario_c]; norm_num⟩).start +
          ((carve_out_region ⟨[⟨0x1000, 0x3000⟩]⟩ 0x2000 0x1000).regions.get
            ⟨0, by rw [carve_scenario_c]; norm_num⟩).size) ∧
      (((carve_out_region ⟨[⟨0x1000, 0x3000⟩]⟩ 0x2000 0x1000).regions.get
          ⟨1, by rw [carve_scenario_c]; norm_num⟩).start ≤ 0x1800 ∧
        (0x1800 : Nat) <
          ((carve_out_region ⟨[⟨0x1000, 0x3000⟩]⟩ 0x2000 0x1000).regions.get
            ⟨1, by rw [carve_scenario_c]; norm_num⟩).start +
          ((carve_out_region ⟨[⟨0x1000, 0x3000⟩]⟩ 0x2000 0x1000).regions.get
            ⟨1, by rw [carve_scenario_c]; norm_num⟩).size)) :=
  map_operations_keep_regions_disjoint
    [MapOp.add 0x1000 0x3000, MapOp.carve 0x2000 0x1000] ⟨[]⟩
    (carve_out_region ⟨[⟨0x1000, 0x3000⟩]⟩ 0x2000 0x1000)
    (by intro i j hi; simp at hi)
    (by decide)
    rfl
    0 1 (by rw [carve_scenario_c]; norm_num) (by rw [carve_scenario_c]; norm_num)
    (by norm_num) 0x1800

/-! The physical bump allocator
(boot_lib/src/memory/physical_memory_allocator.rs). -/

/-- PhysicalBumpAllocator: a 128-slot region array (modelled as a total
function over slot indices), the count of valid regions, the region
currently allocated from, and the next address to hand out. -/
structure PhysicalBumpAllocator where
  memory_regions : Nat → MemoryRegion
  region_count : Nat
  current_region_index : Nat
  next_allocation_address : Nat

/-- PhysicalBumpAllocator::new: zeroed regions and counters. -/
def PhysicalBumpAllocator.new : PhysicalBumpAllocator :=
  ⟨fun _ => ⟨0, 0⟩, 0, 0, 0⟩

/-- PhysicalBumpAllocator::reset (source lines 108-122): copies
min(region_count, 128) regions, sets the next allocation address to the
first region's start when at least one region was copied, and — exactly
as in the source — leaves current_region_index untouched. -/
def PhysicalBumpAllocator.reset (a : PhysicalBumpAllocator)
    (regions : List MemoryRegion) (region_count : Nat) : PhysicalBumpAllocator :=
  let copy_count := min region_count 128
  let new_regions : Nat → MemoryRegion := fun i =>
    if i < copy_count then regions.getD i ⟨0, 0⟩ else a.memory_regions i
  { memory_regions := new_regions
    region_count := copy_count
    current_region_index := a.current_region_index
    next_allocation_address :=
      if 0 < copy_count then (new_regions 0).start else a.next_allocation_address }

/-- The while loop of allocate_page (source lines 144-185), with explicit
fuel covering the remaining regions; returns the optional allocated
address together with the updated current_region_index and
next_allocation_address. -/
def allocate_page_loop (mrs : Nat → MemoryRegion) (region_count : Nat) :
    Nat → Nat → Nat → Option Nat × Nat × Nat
  | 0, index, next => (none, index, next)
  | fuel + 1, index, next =>
    if index < region_count then
      if next + 4096 > (mrs index).start + (mrs index).size then
        if index + 1 < region_count then
          allocate_page_loop mrs region_count fuel (index + 1) (mrs (index + 1)).start
        else
          (none, index + 1, next)
      else
        if next + 4096 + 4096 > (mrs index).start + (mrs index).size then
          if index + 1 < region_count then
            (some next, index + 1, (mrs (index + 1)).start)
          else
            (some next, index + 1, next + 4096)
        else
          (some next, index, next + 4096)
    else
      (none, index, next)

/-- PhysicalBumpAllocator::allocate_page (source lines 137-189): bail out
when no regions are registered, otherwise run the region-advancing loop
and commit its state updates. -/
def PhysicalBumpAllocator.allocate_page (a : PhysicalBumpAllocator) :
    Option Nat × PhysicalBumpAllocator :=
  if a.region_count = 0 then (none, a)
  else
    match allocate_page_loop a.memory_regions a.region_count
        (a.region_count - a.current_region_index)
        a.current_region_index a.next_allocation_address with
    | (result, index, next) =>
      (result, { a with current_region_index := index, next_allocation_address := next })

/-- The sequence of results of k successive allocate_page calls. -/
def allocResults : PhysicalBumpAllocator → Nat → List (Option Nat)
  | _, 0 => []
  | a, k + 1 =>
    match a.allocate_page with
    | (r, a1) => r :: allocResults a1 k

theorem allocate_page_exhausted (a : PhysicalBumpAllocator)
    (h : a.region_count ≤ a.current_region_index) :
    a.allocate_page = (none, a) := by
  unfold PhysicalBumpAllocator.allocate_page
  by_cases h0 : a.region_count = 0
  · rw [if_pos h0]
  · rw [if_neg h0]
    have hf : a.region_count - a.current_region_index = 0 := by omega
    rw [hf]
    rfl

theorem allocResults_exhausted (k : Nat) : ∀ (a : PhysicalBumpAllocator),
    a.region_count ≤ a.current_region_index →
    (allocResults a k).filterMap id = [] := by
  induction k with
  | zero => intro a h; rfl
  | succ n ih =>
    intro a h
    have hres : allocResults a (n + 1) = none :: allocResults a n := by
      simp only [allocResults]
      rw [allocate_page_exhausted a h]
    rw [hres]
    have hfm : (none :: allocResults a n).filterMap id =
        (allocResults a n).filterMap id := by
      simp
    rw [hfm]
    exact ih a h

/-- Invariant of the in-region allocation cursor: the next allocation
address lies between the region's start and end and is page-aligned. -/
def RegionInv (rs : List MemoryRegion) (index next : Nat) : Prop :=
  (rs.getD index ⟨0, 0⟩).start ≤ next ∧
  next ≤ (rs.getD index ⟨0, 0⟩).start + (rs.getD index ⟨0, 0⟩).size ∧
  next % 4096 = 0

/-- Postcondition of one allocate_page_loop run. -/
def LoopPost (rs : List MemoryRegion) (next : Nat) (r : Option Nat)
    (index1 next1 : Nat) : Prop :=
  (r = none → rs.length ≤ index1) ∧
  (∀ x, r = some x →
    next ≤ x ∧ x % 4096 = 0 ∧
    (∃ i, i < rs.length ∧ (rs.getD i ⟨0, 0⟩).start ≤ x ∧
      x + 4096 ≤ (rs.getD i ⟨0, 0⟩).start + (rs.getD i ⟨0, 0⟩).size) ∧
    x + 4096 ≤ next1 ∧ (index1 < rs.length → RegionInv rs index1 next1))

/-- Allocator-level invariant: the stored count matches the snapshot, the
stored regions agree with it, and a live cursor satisfies RegionInv. -/
def AInv (rs : List MemoryRegion) (a : PhysicalBumpAllocator) : Prop :=
  a.region_count = rs.length ∧
  (∀ i, i < rs.length → a.memory_regions i = rs.getD i ⟨0, 0⟩) ∧
  (a.current_region_index < a.region_count →
    RegionInv rs a.current_region_index a.next_allocation_address)

theorem allocate_page_loop_spec (rs : List MemoryRegion)
    (halign : ∀ i, i < rs.length → (rs.getD i ⟨0, 0⟩).start % 4096 = 0)
    (hsort : ∀ i, i + 1 < rs.length →
      (rs.getD i ⟨0, 0⟩).start + (rs.getD i ⟨0, 0⟩).size ≤
        (rs.getD (i + 1) ⟨0, 0⟩).start)
    (mrs : Nat → MemoryRegion)
    (hmrs : ∀ i, i < rs.length → mrs i = rs.getD i ⟨0, 0⟩) :
    ∀ fuel index next, rs.length - index ≤ fuel →
      (index < rs.length → RegionInv rs index next) →
      ∀ r index1 next1,
        allocate_page_loop mrs rs.length fuel index next = (r, index1, next1) →
        LoopPost rs next r index1 next1 := by
  intro fuel
  induction fuel with
  | zero =>
    intro index next h1 h2 r index1 next1 heq
    simp only [allocate_page_loop] at heq
    injection heq with hr hrest
    injection hrest with hi hn
    subst hr
    subst hi
    subst hn
    refine ⟨fun _ => by omega, fun x hx => absurd hx (by simp)⟩
  | succ fuel ih =>
    intro index next h1 h2 r index1 next1 heq
    simp only [allocate_page_loop] at heq
    by_cases hidx : index < rs.length
    · rw [if_pos hidx, hmrs index hidx] at heq
      have hreg := h2 hidx
      obtain ⟨hr1, hr2, hr3⟩ := hreg
      by_cases hov : next + 4096 > (rs.getD index ⟨0, 0⟩).start + (rs.getD index ⟨0, 0⟩).size
      · rw [if_pos hov] at heq
        by_cases hnx : index + 1 < rs.length
        · rw [if_pos hnx, hmrs (index + 1) hnx] at heq
          have hrec := ih (index + 1) ((rs.getD (index + 1) ⟨0, 0⟩).start)
            (by omega)
            (fun _ => ⟨le_refl _, Nat.le_add_right _ _, halign (index + 1) hnx⟩)
            r index1 next1 heq
          obtain ⟨hn, hs⟩ := hrec
          refine ⟨hn, fun x hx => ?_⟩
          obtain ⟨ha, hb, hc, hd, he⟩ := hs x hx
          have hmono : next ≤ (rs.getD (index + 1) ⟨0, 0⟩).start :=
            le_trans hr2 (hsort index hnx)
          exact ⟨le_trans hmono ha, hb, hc, hd, he⟩
        · rw [if_neg hnx] at heq
          injection heq with hr hrest
          injection hrest with hi hn
          subst hr
          subst hi
          subst hn
          refine ⟨fun _ => by omega, fun x hx => absurd hx (by simp)⟩
      · rw [if_neg hov] at heq
        by_cases hov2 :
            next + 4096 + 4096 > (rs.getD index ⟨0, 0⟩).start + (rs.getD index ⟨0, 0⟩).size
        · rw [if_pos hov2] at heq
          by_cases hnx : index + 1 < rs.length
          · rw [if_pos hnx, hmrs (index + 1) hnx] at heq
            injection heq with hr hrest
            injection hrest with hi hn
            subst hi
            subst hn
            refine ⟨fun hcon => by rw [← hr] at hcon; exact absurd hcon (by simp),
              fun x hx => ?_⟩
            rw [← hr] at hx
            injection hx with hxx
            subst hxx
            refine ⟨le_refl _, hr3, ⟨index, hidx, hr1, by omega⟩, ?_, ?_⟩
            · exact le_trans (by omega) (hsort index hnx)
            · intro _
              exact ⟨le_refl _, Nat.le_add_right _ _, halign (index + 1) hnx⟩
          · rw [if_neg hnx] at heq
            injection heq with hr hrest
            injection hrest with hi hn
            subst hi
            subst hn
            refine ⟨fun hcon => by rw [← hr] at hcon; exact absurd hcon (by simp),
              fun x hx => ?_⟩
            rw [← hr] at hx
            injection hx with hxx
            subst hxx
            exact ⟨le_refl _, hr3, ⟨index, hidx, hr1, by omega⟩, le_refl _,
              fun hcon => absurd hcon hnx⟩
        · rw [if_neg hov2] at heq
          injection heq with hr hrest
          injection hrest with hi hn
          subst hi
          subst hn
          refine ⟨fun hcon => by rw [← hr] at hcon; exact absurd hcon (by simp),
            fun x hx => ?_⟩
          rw [← hr] at hx
          injection hx with hxx
          subst hxx
          exact ⟨le_refl _, hr3, ⟨index, hidx, hr1, by omega⟩, le_refl _,
            fun _ => ⟨by omega, by omega, by omega⟩⟩
    · rw [if_neg hidx] at heq
      injection heq with hr hrest
      injection hrest with hi hn
      subst hr
      subst hi
      subst hn
      refine ⟨fun _ => by omega, fun x hx => absurd hx (by simp)⟩

theorem allocate_page_spec (rs : List MemoryRegion)
    (halign : ∀ i, i < rs.length → (rs.getD i ⟨0, 0⟩).start % 4096 = 0)
    (hsort : ∀ i, i + 1 < rs.length →
      (rs.getD i ⟨0, 0⟩).start + (rs.getD i ⟨0, 0⟩).size ≤
        (rs.getD (i + 1) ⟨0, 0⟩).start)
    (a : PhysicalBumpAllocator) (h : AInv rs a) :
    ∀ r a1, a.allocate_page = (r, a1) →
      AInv rs a1 ∧
      (r = none → rs.length ≤ a1.current_region_index) ∧
      (∀ x, r = some x →
        a.next_allocation_address ≤ x ∧ x % 4096 = 0 ∧
        (∃ i, i < rs.length ∧ (rs.getD i ⟨0, 0⟩).start ≤ x ∧
          x + 4096 ≤ (rs.getD i ⟨0, 0⟩).start + (rs.getD i ⟨0, 0⟩).size) ∧
        x + 4096 ≤ a1.next_allocation_address) := by
  intro r a1 heq
  obtain ⟨hc, hm, hri⟩ := h
  unfold PhysicalBumpAllocator.allocate_page at heq
  by_cases h0 : a.region_count = 0
  · rw [if_pos h0] at heq
    injection heq with hr ha
    subst hr
    subst ha
    refine ⟨⟨hc, hm, hri⟩, fun _ => by omega, fun x hx => absurd hx (by simp)⟩
  · rw [if_neg h0] at heq
    rcases hl : allocate_page_loop a.memory_regions a.region_count
        (a.region_count - a.current_region_index)
        a.current_region_index a.next_allocation_address with ⟨res, idx1, nxt1⟩
    rw [hl] at heq
    injection heq with hr ha
    subst hr
    subst ha
    rw [hc] at hl
    have hpost := allocate_page_loop_spec rs halign hsort a.memory_regions hm
      (rs.length - a.current_region_index) a.current_region_index
      a.next_allocation_address (le_refl _)
      (fun hlt => hri (by omega)) res idx1 nxt1 hl
    obtain ⟨hn, hs⟩ := hpost
    cases res with
    | none =>
      refine ⟨⟨hc, hm, fun hcon => ?_⟩, fun _ => hn rfl, fun x hx => absurd hx (by simp)⟩
      have hidx : rs.length ≤ idx1 := hn rfl
      change idx1 < a.region_count at hcon
      exact absurd hcon (by omega)
    | some x =>
      obtain ⟨ha1, ha2, ha3, ha4, ha5⟩ := hs x rfl
      refine ⟨⟨hc, hm, fun hcon => ?_⟩, fun hcon => absurd hcon (by simp),
        fun y hy => ?_⟩
      · change idx1 < a.region_count at hcon
        exact ha5 (by omega)
      · injection hy with hyy
        subst hyy
        exact ⟨ha1, ha2, ha3, ha4⟩

theorem allocResults_spec (rs : List MemoryRegion)
    (halign : ∀ i, i < rs.length → (rs.getD i ⟨0, 0⟩).start % 4096 = 0)
    (hsort : ∀ i, i + 1 < rs.length →
      (rs.getD i ⟨0, 0⟩).start + (rs.getD i ⟨0, 0⟩).size ≤
        (rs.getD (i + 1) ⟨0, 0⟩).start) :
    ∀ (k : Nat) (a : PhysicalBumpAllocator), AInv rs a →
      List.Chain' (fun x y => x < y) ((allocResults a k).filterMap id) ∧
      (∀ x ∈ (allocResults a k).filterMap id,
        x % 4096 = 0 ∧ ∃ i, i < rs.length ∧ (rs.getD i ⟨0, 0⟩).start ≤ x ∧
          x + 4096 ≤ (rs.getD i ⟨0, 0⟩).start + (rs.getD i ⟨0, 0⟩).size) ∧
      (∀ x ∈ (allocResults a k).filterMap id, a.next_allocation_address ≤ x) ∧
      (rs.length ≤ a.current_region_index → (allocResults a k).filterMap id = []) := by
  intro k
  induction k with
  | zero =>
    intro a _
    refine ⟨?_, ?_, ?_, fun _ => rfl⟩ <;> simp [allocResults]
  | succ n ih =>
    intro a h
    rcases hap : a.allocate_page with ⟨r, a1⟩
    obtain ⟨hinv1, hnone, hsome⟩ := allocate_page_spec rs halign hsort a h r a1 hap
    have hres : allocResults a (n + 1) = r :: allocResults a1 n := by
      simp only [allocResults]
      rw [hap]
    have hih := ih a1 hinv1
    cases r with
    | none =>
      rw [hres]
      have hfm : (none :: allocResults a1 n).filterMap id =
          (allocResults a1 n).filterMap id := by simp
      rw [hfm]
      have hempty := hih.2.2.2 (hnone rfl)
      rw [hempty]
      exact ⟨List.chain'_nil, by simp, by simp, fun _ => rfl⟩
    | some x =>
      rw [hres]
      have hfm : (some x :: allocResults a1 n).filterMap id =
          x :: (allocResults a1 n).filterMap id := by simp
      rw [hfm]
      obtain ⟨hx1, hx2, hx3, hx4⟩ := hsome x rfl
      have hlow : ∀ y ∈ (allocResults a1 n).filterMap id, x < y := by
        intro y hy
        by_cases hcur : a1.current_region_index < a1.region_count
        · have := hih.2.2.1 y hy
          omega
        · have hlen : rs.length ≤ a1.current_region_index := by
            have := hinv1.1
            omega
          rw [hih.2.2.2 hlen] at hy
          exact absurd hy (by simp)
      refine ⟨?_, ?_, ?_, ?_⟩
      · rcases hxs : (allocResults a1 n).filterMap id with _ | ⟨y, ys⟩
        · exact List.chain'_singleton x
        · rw [List.chain'_cons]
          refine ⟨hlow y (by rw [hxs]; exact List.mem_cons_self y ys), ?_⟩
          rw [← hxs]
          exact hih.1
      · intro z hz
        rcases List.mem_cons.mp hz with rfl | hz1
        · exact ⟨hx2, hx3⟩
        · exact hih.2.1 z hz1
      · intro z hz
        rcases List.mem_cons.mp hz with rfl | hz1
        · exact hx1
        · have := hlow z hz1
          omega
      · intro hlen
        exfalso
        have hcc : a.region_count ≤ a.current_region_index := by
          rw [h.1]
          exact hlen
        have hx := allocate_page_exhausted a hcc
        rw [hap] at hx
        injection hx with h5 h6
        exact absurd h5 (by simp)

theorem reset_AInv (rs : List MemoryRegion) (hlen : rs.length ≤ 128)
    (halign : ∀ i, i < rs.length → (rs.getD i ⟨0, 0⟩).start % 4096 = 0) :
    AInv rs (PhysicalBumpAllocator.new.reset rs rs.length) := by
  have hmin : min rs.length 128 = rs.length := by omega
  refine ⟨hmin, ?_, ?_⟩
  · intro i hi
    have hc : i < min rs.length 128 := by omega
    show (if i < min rs.length 128 then rs.getD i ⟨0, 0⟩ else
      PhysicalBumpAllocator.new.memory_regions i) = rs.getD i ⟨0, 0⟩
    rw [if_pos hc]
  · intro hcur
    have hcur0 : (PhysicalBumpAllocator.new.reset rs rs.length).current_region_index = 0 :=
      rfl
    rw [hcur0] at hcur ⊢
    have hreg : (PhysicalBumpAllocator.new.reset rs rs.length).region_count = rs.length :=
      hmin
    have hpos : 0 < rs.length := by omega
    have hc : 0 < min rs.length 128 := by omega
    have hnext : (PhysicalBumpAllocator.new.reset rs rs.length).next_allocation_address =
        (rs.getD 0 ⟨0, 0⟩).start := by
      simp [PhysicalBumpAllocator.reset, hc]
    rw [hnext]
    exact ⟨le_refl _, Nat.le_add_right _ _, halign 0 hpos⟩

/-- C9 counterexample: the claim states that successive successful
allocate_page calls return strictly increasing addresses for any
snapshotted regions. Snapshotting the regions (0x10000, 0x1000) then
(0x1000, 0x1000) — which the allocator never sorts — makes the first
call return 0x10000 and the second 0x1000, a strictly decreasing pair. -/
theorem allocate_page_decreasing_for_unsorted_regions :
    allocResults (PhysicalBumpAllocator.new.reset
        [⟨0x10000, 0x1000⟩, ⟨0x1000, 0x1000⟩] 2) 2 =
      [some 0x10000, some 0x1000] ∧
    ¬ List.Chain' (fun x y => x < y)
      ((allocResults (PhysicalBumpAllocator.new.reset
          [⟨0x10000, 0x1000⟩, ⟨0x1000, 0x1000⟩] 2) 2).filterMap id) := by
  constructor
  · rfl
  · have hl2 : ((allocResults (PhysicalBumpAllocator.new.reset
        [⟨0x10000, 0x1000⟩, ⟨0x1000, 0x1000⟩] 2) 2).filterMap id) =
        [0x10000, 0x1000] := rfl
    rw [hl2]
    intro hch
    rw [List.chain'_cons] at hch
    exact absurd hch.1 (by norm_num)

/-- C9 (amended): when the snapshotted regions are sorted (each region
ends at or before the next one starts) and start page-aligned, successive
successful allocate_page calls on a freshly reset allocator return
strictly increasing addresses, each 4 KiB-aligned, each lying within one
of the snapshotted regions. Without the sortedness condition the claim
fails, since allocate_page walks the regions in snapshot order. -/
theorem allocate_page_increasing_aligned_within (rs : List MemoryRegion)
    (hlen : rs.length ≤ 128)
    (halign : ∀ i, i < rs.length → (rs.getD i ⟨0, 0⟩).start % 4096 = 0)
    (hsort : ∀ i, i + 1 < rs.length →
      (rs.getD i ⟨0, 0⟩).start + (rs.getD i ⟨0, 0⟩).size ≤
        (rs.getD (i + 1) ⟨0, 0⟩).start)
    (k : Nat) :
    List.Chain' (fun x y => x < y)
      ((allocResults (PhysicalBumpAllocator.new.reset rs rs.length) k).filterMap id) ∧
    ∀ x ∈ (allocResults (PhysicalBumpAllocator.new.reset rs rs.length) k).filterMap id,
      x % 4096 = 0 ∧ ∃ i, i < rs.length ∧ (rs.getD i ⟨0, 0⟩).start ≤ x ∧
        x + 4096 ≤ (rs.getD i ⟨0, 0⟩).start + (rs.getD i ⟨0, 0⟩).size := by
  have h := allocResults_spec rs halign hsort k _ (reset_AInv rs hlen halign)
  exact ⟨h.1, h.2.1⟩

/-- Witness for the amended C9 theorem on the single region
(0x1000, 0x2000) over three allocate_page calls. -/
theorem allocate_page_increasing_aligned_within_witness :
    List.Chain' (fun x y => x < y)
      ((allocResults (PhysicalBumpAllocator.new.reset
          [(⟨0x1000, 0x2000⟩ : MemoryRegion)]
          [(⟨0x1000, 0x2000⟩ : MemoryRegion)].length) 3).filterMap id) ∧
    ∀ x ∈ (allocResults (PhysicalBumpAllocator.new.reset
        [(⟨0x1000, 0x2000⟩ : MemoryRegion)]
        [(⟨0x1000, 0x2000⟩ : MemoryRegion)].length) 3).filterMap id,
      x % 4096 = 0 ∧ ∃ i, i < [(⟨0x1000, 0x2000⟩ : MemoryRegion)].length ∧
        ([(⟨0x1000, 0x2000⟩ : MemoryRegion)].getD i ⟨0, 0⟩).start ≤ x ∧
        x + 4096 ≤ ([(⟨0x1000, 0x2000⟩ : MemoryRegion)].getD i ⟨0, 0⟩).start +
          ([(⟨0x1000, 0x2000⟩ : MemoryRegion)].getD i ⟨0, 0⟩).size :=
  allocate_page_increasing_aligned_within [⟨0x1000, 0x2000⟩] (by norm_num)
    (by intro i hi; simp at hi; subst hi; decide)
    (by intro i hi; simp at hi)
    3

/-! C1: the map_one / translate round trip. -/

theorem bool_cond_pos {b : Bool} (h : b = true) : ¬(b = false) := by
  rw [h]
  decide

theorem bool_cond_neg {b : Bool} (h : b = false) : ¬(b = true) := by
  rw [h]
  decide

/-- A page-sized virtual address splits as vpn shifted into the page
frame plus the page offset. -/
theorem shl12_or_off (vpn off : Nat) (h : off < 4096) :
    (vpn <<< 12) ||| off = vpn * 4096 + off := by
  rw [Nat.shiftLeft_eq]
  have h2 : off < 2 ^ 12 := lt_of_lt_of_le h (by norm_num)
  have h3 := Nat.mul_add_lt_is_or h2 vpn
  rw [Nat.mul_comm vpn (2 ^ 12), ← h3]

theorem va_index2 (vpn off : Nat) (h : off < 4096) :
    ((vpn * 4096 + off) >>> 30) &&& 0x1FF = get_level_2_index vpn := by
  unfold get_level_2_index
  rw [Nat.shiftRight_eq_div_pow, Nat.shiftRight_eq_div_pow, and_511_eq, and_511_eq]
  have h30 : (2 : Nat) ^ 30 = 1073741824 := by norm_num
  have h18 : (2 : Nat) ^ 18 = 262144 := by norm_num
  rw [h30, h18]
  have hd : (vpn * 4096 + off) / 1073741824 = vpn / 262144 := by omega
  rw [hd]

theorem va_index1 (vpn off : Nat) (h : off < 4096) :
    ((vpn * 4096 + off) >>> 21) &&& 0x1FF = get_level_1_index vpn := by
  unfold get_level_1_index
  rw [Nat.shiftRight_eq_div_pow, Nat.shiftRight_eq_div_pow, and_511_eq, and_511_eq]
  have h21 : (2 : Nat) ^ 21 = 2097152 := by norm_num
  have h9 : (2 : Nat) ^ 9 = 512 := by norm_num
  rw [h21, h9]
  have hd : (vpn * 4096 + off) / 2097152 = vpn / 512 := by omega
  rw [hd]

theorem va_index0 (vpn off : Nat) (h : off < 4096) :
    ((vpn * 4096 + off) >>> 12) &&& 0x1FF = get_level_0_index vpn := by
  unfold get_level_0_index
  rw [Nat.shiftRight_eq_div_pow, and_511_eq, and_511_eq]
  have h12 : (2 : Nat) ^ 12 = 4096 := by norm_num
  rw [h12]
  have hd : (vpn * 4096 + off) / 4096 = vpn := by omega
  rw [hd]

theorem va_offset (vpn off : Nat) (h : off < 4096) :
    (vpn * 4096 + off) &&& 0xFFF = off := by
  rw [and_4095_eq]
  omega

/-- An intermediate entry written for a freshly allocated, page-aligned
table below 2^56 is valid and points back at that table. -/
theorem fresh_table_entry (ptr : Nat) (hal : ptr % 4096 = 0) (hlt : ptr < 2 ^ 56) :
    is_valid (set_ppn (set_valid 0 true) (ptr >>> 12)) = true ∧
    get_ppn (set_ppn (set_valid 0 true) (ptr >>> 12)) <<< 12 = ptr := by
  rw [set_valid_zero, set_ppn_eq 1 _ (by norm_num)]
  have h115 : (1 : Nat) &&& 15 = 1 := rfl
  rw [h115]
  constructor
  · rw [is_valid_low _ _ (by norm_num)]
    rfl
  · rw [get_ppn_eq _ _ (by norm_num)]
    rw [Nat.shiftRight_eq_div_pow, Nat.shiftLeft_eq]
    have h12 : (2 : Nat) ^ 12 = 4096 := by norm_num
    have h44 : (2 : Nat) ^ 44 = 17592186044416 := by norm_num
    have h56 : (2 : Nat) ^ 56 = 72057594037927936 := by norm_num
    rw [h12, h44]
    rw [h56] at hlt
    omega

/-- The leaf entry installed for physical page p is valid and stores
exactly p in its PPN field. -/
theorem leaf_entry_facts (flags : PageTableEntryFlags) (p : Nat) (hp : p < 2 ^ 44) :
    is_valid (set_ppn (set_flags (set_valid 0 true) flags) p) = true ∧
    get_ppn (set_ppn (set_flags (set_valid 0 true) flags) p) = p := by
  rw [set_valid_zero]
  obtain ⟨hlt, hv⟩ := set_flags_one_small flags
  rw [set_ppn_eq _ _ hlt]
  have hm : set_flags 1 flags &&& 15 < 1024 :=
    lt_of_le_of_lt Nat.and_le_right (by norm_num)
  constructor
  · rw [is_valid_low _ _ hm, is_valid_and15, hv]
  · rw [get_ppn_eq _ _ hm]
    have hmod : p % 2 ^ 44 = p := Nat.mod_eq_of_lt hp
    rw [hmod, hmod]

/-- If the page walk for vpn fails although the level-2 and level-1
entries are valid, the level-0 entry must be invalid. -/
theorem translate_third_invalid (root : PageTable) (mem : Mem) (vpn : Nat)
    (h : translate_virtual_address root mem (vpn <<< 12) = none)
    (h2 : is_valid (root (get_level_2_index vpn)) = true)
    (h1 : is_valid (mem (get_ppn (root (get_level_2_index vpn)) <<< 12)
      (get_level_1_index vpn)) = true) :
    is_valid (mem (get_ppn (mem (get_ppn (root (get_level_2_index vpn)) <<< 12)
      (get_level_1_index vpn)) <<< 12) (get_level_0_index vpn)) = false := by
  simp only [translate_virtual_address] at h
  have hv : vpn <<< 12 = vpn * 4096 + 0 := by
    rw [Nat.shiftLeft_eq]
    norm_num
  rw [hv, va_index2 vpn 0 (by norm_num), va_index1 vpn 0 (by norm_num),
    va_index0 vpn 0 (by norm_num)] at h
  rw [if_neg (bool_cond_pos h2), if_neg (bool_cond_pos h1)] at h
  cases h0 : is_valid (mem (get_ppn (mem (get_ppn (root (get_level_2_index vpn)) <<< 12)
      (get_level_1_index vpn)) <<< 12) (get_level_0_index vpn)) with
  | false => rfl
  | true =>
    rw [if_neg (bool_cond_pos h0)] at h
    simp at h

/-- The translate walk succeeds for every offset of the page once the
three levels read a valid root entry, a valid intermediate entry, and
the installed leaf for physical page p. -/
theorem translate_after_install (root2 : PageTable) (mem2 : Mem) (vpn p : Nat)
    (flags : PageTableEntryFlags) (e1v : Nat) (hp : p < 2 ^ 44)
    (h2v : is_valid (root2 (get_level_2_index vpn)) = true)
    (h1r : mem2 (get_ppn (root2 (get_level_2_index vpn)) <<< 12)
      (get_level_1_index vpn) = e1v)
    (h1v : is_valid e1v = true)
    (h0r : mem2 (get_ppn e1v <<< 12) (get_level_0_index vpn) =
      set_ppn (set_flags (set_valid 0 true) flags) p) :
    ∀ off, off < 4096 →
      translate_virtual_address root2 mem2 ((vpn <<< 12) ||| off) =
        some ((p <<< 12) ||| off) := by
  intro off hoff
  simp only [translate_virtual_address]
  rw [shl12_or_off vpn off hoff, va_index2 vpn off hoff, va_index1 vpn off hoff,
    va_index0 vpn off hoff, va_offset vpn off hoff]
  rw [if_neg (bool_cond_pos h2v), h1r, if_neg (bool_cond_pos h1v), h0r]
  obtain ⟨hv0, hg0⟩ := leaf_entry_facts flags p hp
  rw [if_neg (bool_cond_pos hv0), hg0]

/-- Freshness side conditions under which the mapping installed by
allocate_vpn is visible to the walker: along the branch allocate_vpn will
take, every invalid entry that gets its valid bit set is fully zero, every
freshly allocated table page is page-aligned, below 2^56 and distinct
from the table pages the walk reads, and when both intermediate levels
already exist they do not alias the slot being written. -/
def c1_fresh {σ : Type} (root : PageTable) (vpn : Nat) (mem : Mem) (st : σ)
    (alloc_page : σ → Option Nat × σ) : Bool :=
  let vpn1 := get_level_1_index vpn
  let vpn0 := get_level_0_index vpn
  let e2 := root (get_level_2_index vpn)
  if is_valid e2 then
    let l1addr := get_ppn e2 <<< 12
    let e1 := mem l1addr vpn1
    if is_valid e1 then
      decide (get_ppn e1 <<< 12 ≠ l1addr ∨ vpn0 ≠ vpn1)
    else
      match alloc_page st with
      | (none, _) => false
      | (some ptr0, _) =>
        decide (e1 = 0 ∧ ptr0 % 4096 = 0 ∧ ptr0 < 2 ^ 56 ∧ ptr0 ≠ l1addr)
  else
    match alloc_page st with
    | (none, _) => false
    | (some ptr1, st1) =>
      match alloc_page st1 with
      | (none, _) => false
      | (some ptr0, _) =>
        decide (e2 = 0 ∧ ptr1 % 4096 = 0 ∧ ptr1 < 2 ^ 56 ∧
          ptr0 % 4096 = 0 ∧ ptr0 < 2 ^ 56 ∧ ptr0 ≠ ptr1)

/-- C1: the claim states that when map_one (allocate_vpn) applied to a
previously unmapped vpn succeeds, it returns the requested ppn, and
translate then maps (vpn <<< 12) ||| off to (ppn <<< 12) ||| off for
every page offset off. Verified here for well-formed inputs: the ppn fits
in 44 bits and the freshness side conditions of c1_fresh hold (zeroed
invalid entries, aligned distinct fresh table pages, no aliasing between
the levels touched), conditions the boot flow's zeroed tables and bump
allocator satisfy. -/
theorem allocate_vpn_translate_roundtrip {σ : Type} (root : PageTable) (vpn p : Nat)
    (flags : PageTableEntryFlags) (mem : Mem) (st : σ)
    (alloc_page : σ → Option Nat × σ)
    (hppn : p < 2 ^ 44)
    (hunmapped : translate_virtual_address root mem (vpn <<< 12) = none)
    (hfresh : c1_fresh root vpn mem st alloc_page = true)
    (rp : Option Nat) (root2 : PageTable) (mem2 : Mem) (st2 : σ)
    (hrun : allocate_vpn root vpn (some p) flags mem st alloc_page =
      (rp, root2, mem2, st2)) :
    rp = some p ∧ ∀ off, off < 4096 →
      translate_virtual_address root2 mem2 ((vpn <<< 12) ||| off) =
        some ((p <<< 12) ||| off) := by
  simp only [allocate_vpn] at hrun
  simp only [c1_fresh] at hfresh
  by_cases h2 : is_valid (root (get_level_2_index vpn)) = true
  · rw [if_pos h2] at hrun hfresh
    simp only [allocate_vpn_level1] at hrun
    by_cases h1 : is_valid (mem (get_ppn (root (get_level_2_index vpn)) <<< 12)
        (get_level_1_index vpn)) = true
    · rw [if_pos h1] at hrun hfresh
      have hdisj := of_decide_eq_true hfresh
      simp only [allocate_vpn_level0] at hrun
      have h0 := translate_third_invalid root mem vpn hunmapped h2 h1
      set l1 := get_ppn (root (get_level_2_index vpn)) <<< 12 with hl1
      set v1 := get_level_1_index vpn with hv1
      set v0 := get_level_0_index vpn with hv0
      set e1 := mem l1 v1 with he1
      set l0 := get_ppn e1 <<< 12 with hl0
      set e0a := set_ppn (set_flags (set_valid 0 true) flags) p with he0a
      have hcond : (is_valid (mem l0 v0) && is_leaf (mem l0 v0)) = false := by
        rw [h0]
        rfl
      rw [if_neg (bool_cond_neg hcond)] at hrun
      injection hrun with hrp hrest
      injection hrest with hroot hrest2
      injection hrest2 with hmem hst
      subst hrp
      subst hroot
      subst hmem
      subst hst
      refine ⟨rfl, translate_after_install _ _ vpn p flags e1 hppn h2 ?_ h1 ?_⟩
      · show mem_set mem l0 (table_set (mem l0) v0 e0a) l1 v1 = e1
        by_cases hll : l1 = l0
        · rcases hdisj with hne | hne
          · exact absurd hll.symm hne
          · rw [← hll, mem_set_hit, table_set_miss _ _ _ _ (Ne.symm hne)]
        · rw [mem_set_miss _ _ _ _ hll]
      · show mem_set mem l0 (table_set (mem l0) v0 e0a) l0 v0 = e0a
        rw [mem_set_hit, table_set_hit]
    · rw [if_neg h1] at hrun hfresh
      rcases halloc : alloc_page st with ⟨op, st1⟩
      cases op with
      | none =>
        simp only [halloc] at hfresh
        exact absurd hfresh (by decide)
      | some ptr0 =>
        simp only [halloc] at hrun hfresh
        obtain ⟨he1z, hal, hlt, hne⟩ := of_decide_eq_true hfresh
        rw [he1z] at hrun
        simp only [allocate_vpn_level0] at hrun
        rw [(fresh_table_entry ptr0 hal hlt).2] at hrun
        rw [mem_set_miss _ _ _ _ hne, mem_set_hit] at hrun
        have hempty0 : empty_table (get_level_0_index vpn) = 0 := rfl
        rw [hempty0] at hrun
        have hvl : (is_valid 0 && is_leaf 0) = false := rfl
        rw [if_neg (bool_cond_neg hvl)] at hrun
        injection hrun with hrp hrest
        injection hrest with hroot hrest2
        injection hrest2 with hmem hst
        subst hrp
        subst hroot
        subst hmem
        subst hst
        refine ⟨rfl, translate_after_install _ _ vpn p flags
          (set_ppn (set_valid 0 true) (ptr0 >>> 12)) hppn h2 ?_
          (fresh_table_entry ptr0 hal hlt).1 ?_⟩
        · rw [mem_set_miss _ _ _ _ (Ne.symm hne), mem_set_hit, table_set_hit]
        · rw [(fresh_table_entry ptr0 hal hlt).2, mem_set_hit, table_set_hit]
  · rw [if_neg h2] at hrun hfresh
    rcases halloc1 : alloc_page st with ⟨op1, st1⟩
    cases op1 with
    | none =>
      simp only [halloc1] at hfresh
      exact absurd hfresh (by decide)
    | some ptr1 =>
      simp only [halloc1] at hrun hfresh
      rcases halloc2 : alloc_page st1 with ⟨op2, st2x⟩
      cases op2 with
      | none =>
        simp only [halloc2] at hfresh
        exact absurd hfresh (by decide)
      | some ptr0 =>
        simp only [halloc2] at hfresh
        obtain ⟨he2z, hal1, hlt1, hal0, hlt0, hne01⟩ := of_decide_eq_true hfresh
        rw [he2z] at hrun
        simp only [allocate_vpn_level1] at hrun
        rw [(fresh_table_entry ptr1 hal1 hlt1).2] at hrun
        rw [mem_set_hit] at hrun
        have hempty1 : empty_table (get_level_1_index vpn) = 0 := rfl
        rw [hempty1] at hrun
        have hiv0 : is_valid 0 = false := rfl
        rw [if_neg (bool_cond_neg hiv0)] at hrun
        simp only [halloc2] at hrun
        simp only [allocate_vpn_level0] at hrun
        rw [(fresh_table_entry ptr0 hal0 hlt0).2] at hrun
        rw [mem_set_miss _ _ _ _ hne01, mem_set_hit] at hrun
        have hempty0 : empty_table (get_level_0_index vpn) = 0 := rfl
        rw [hempty0] at hrun
        have hvl : (is_valid 0 && is_leaf 0) = false := rfl
        rw [if_neg (bool_cond_neg hvl)] at hrun
        injection hrun with hrp hrest
        injection hrest with hroot hrest2
        injection hrest2 with hmem hst
        subst hrp
        subst hroot
        subst hmem
        subst hst
        refine ⟨rfl, translate_after_install _ _ vpn p flags
          (set_ppn (set_valid 0 true) (ptr0 >>> 12)) hppn ?_ ?_
          (fresh_table_entry ptr0 hal0 hlt0).1 ?_⟩
        · rw [table_set_hit]
          exact (fresh_table_entry ptr1 hal1 hlt1).1
        · rw [table_set_hit, (fresh_table_entry ptr1 hal1 hlt1).2,
            mem_set_miss _ _ _ _ (Ne.symm hne01), mem_set_hit, table_set_hit]
        · rw [(fresh_table_entry ptr0 hal0 hlt0).2, mem_set_hit, table_set_hit]

/-- Witness for C1: mapping vpn 5 to ppn 7 in empty tables with two fresh
table pages, then translating at offset 0x123. -/
theorem allocate_vpn_translate_roundtrip_witness :
    (allocate_vpn empty_table 5 (some 7) kernel_flags zero_mem
      [0x2000, 0x3000] list_alloc).1 = some 7 ∧
    translate_virtual_address
      (allocate_vpn empty_table 5 (some 7) kernel_flags zero_mem
        [0x2000, 0x3000] list_alloc).2.1
      (allocate_vpn empty_table 5 (some 7) kernel_flags zero_mem
        [0x2000, 0x3000] list_alloc).2.2.1
      ((5 <<< 12) ||| 0x123) = some ((7 <<< 12) ||| 0x123) := by
  have h := allocate_vpn_translate_roundtrip empty_table 5 7 kernel_flags zero_mem
    [0x2000, 0x3000] list_alloc (by norm_num) (by rfl) (by rfl)
    (allocate_vpn empty_table 5 (some 7) kernel_flags zero_mem
      [0x2000, 0x3000] list_alloc).1
    (allocate_vpn empty_table 5 (some 7) kernel_flags zero_mem
      [0x2000, 0x3000] list_alloc).2.1
    (allocate_vpn empty_table 5 (some 7) kernel_flags zero_mem
      [0x2000, 0x3000] list_alloc).2.2.1
    (allocate_vpn empty_table 5 (some 7) kernel_flags zero_mem
      [0x2000, 0x3000] list_alloc).2.2.2
    rfl
  exact ⟨h.1, h.2 0x123 (by norm_num)⟩

end Riscos
